import Mathlib

/-!
# Feature store: verification of the computation / versioning / serving core

A shallow embedding of the feature-store service (files `cache.py`,
`compute.py`, `main.py`, `models.py` of the repository) together with
theorems settling the specification claims about it.

Conventions of the embedding:
* Python strings are Lean `String`s; entity ids, version labels and feature
  names are strings, timestamps are `Nat`.
* Python values that can be computed and stored (`int`, `str`, `list`,
  `dict`) are the inductive `Val`; `json.dumps` / `json.loads` are the
  executable `dumps` / `parseJson` below, restricted to values whose
  strings need no JSON escaping.
* Fallible operations return `Except` with a structured error, mirroring
  the exception the Python code raises.
* The SQLAlchemy session is modelled as a committed record store plus a
  list of pending (added but uncommitted) rows: `commit` publishes the
  pending rows, `rollback` discards them and nothing else.  A commit that
  the database refuses is modelled by a boolean failure flag.
-/

/-! ## Vector cache key derivation (`cache.py`, `FeatureCache._make_key`)

`_make_key` joins `entity_id`, the sorted comma-joined feature names (only
when the list is truthy, i.e. non-`None` and non-empty) and the version
(only when truthy, i.e. non-`None` and non-empty) with `'|'`, then takes the
md5 hexdigest.  md5 is a fixed deterministic function of that joined
string, so two requests get the same cache key exactly when they produce
the same joined string; the key is therefore modelled as the joined string
itself. -/

/-- Lexicographic comparison of character lists by code point, the order
Python's `sorted` uses on strings. -/
def charsLe : List Char → List Char → Bool
  | [], _ => true
  | _ :: _, [] => false
  | a :: as, b :: bs =>
    if a < b then true
    else if b < a then false
    else charsLe as bs

/-- Python's `<=` on strings: code-point lexicographic order. -/
def strLe (a b : String) : Bool := charsLe a.data b.data

/-- `strLe` as a `Prop`-valued relation, for use with `List.insertionSort`. -/
def strLeR (a b : String) : Prop := strLe a b = true

instance : DecidableRel strLeR := fun a b => instDecidableEqBool (strLe a b) true

theorem charsLe_total (a b : List Char) : charsLe a b = true ∨ charsLe b a = true := by
  induction a generalizing b with
  | nil => exact Or.inl rfl
  | cons x xs ih =>
    cases b with
    | nil => exact Or.inr rfl
    | cons y ys =>
      by_cases hxy : x < y
      · left; simp [charsLe, hxy]
      · by_cases hyx : y < x
        · right; simp [charsLe, hyx, asymm hyx]
        · have hxyeq : x = y := le_antisymm (not_lt.mp hyx) (not_lt.mp hxy)
          subst hxyeq
          simpa [charsLe, hxy] using ih ys

theorem charsLe_trans (a b c : List Char) (hab : charsLe a b = true)
    (hbc : charsLe b c = true) : charsLe a c = true := by
  induction a generalizing b c with
  | nil => rfl
  | cons x xs ih =>
    cases b with
    | nil => simp [charsLe] at hab
    | cons y ys =>
      cases c with
      | nil => simp [charsLe] at hbc
      | cons z zs =>
        by_cases hxy : x < y
        · by_cases hyz : y < z
          · simp [charsLe, lt_trans hxy hyz]
          · by_cases hzy : z < y
            · simp [charsLe, hyz, hzy] at hbc
            · have : y = z := le_antisymm (not_lt.mp hzy) (not_lt.mp hyz)
              subst this
              simp [charsLe, hxy]
        · by_cases hyx : y < x
          · simp [charsLe, hxy, hyx] at hab
          · have hxyeq : x = y := le_antisymm (not_lt.mp hyx) (not_lt.mp hxy)
            subst hxyeq
            simp only [charsLe, hxy, if_neg hxy, lt_irrefl, if_false] at hab
            by_cases hyz : x < z
            · simp [charsLe, hyz]
            · by_cases hzy : z < x
              · simp [charsLe, hyz, hzy] at hbc
              · have : x = z := le_antisymm (not_lt.mp hzy) (not_lt.mp hyz)
                subst this
                simp only [charsLe, lt_irrefl, if_false] at hbc ⊢
                exact ih ys zs hab hbc

theorem charsLe_antisymm (a b : List Char) (hab : charsLe a b = true)
    (hba : charsLe b a = true) : a = b := by
  induction a generalizing b with
  | nil =>
    cases b with
    | nil => rfl
    | cons y ys => simp [charsLe] at hba
  | cons x xs ih =>
    cases b with
    | nil => simp [charsLe] at hab
    | cons y ys =>
      by_cases hxy : x < y
      · simp [charsLe, hxy, asymm hxy] at hba
      · by_cases hyx : y < x
        · simp [charsLe, hxy, hyx] at hab
        · have hxyeq : x = y := le_antisymm (not_lt.mp hyx) (not_lt.mp hxy)
          subst hxyeq
          simp only [charsLe, lt_irrefl, if_false] at hab hba
          exact congrArg (x :: ·) (ih ys hab hba)

instance : IsTotal String strLeR :=
  ⟨fun a b => charsLe_total a.data b.data⟩

instance : IsTrans String strLeR :=
  ⟨fun a b c => charsLe_trans a.data b.data c.data⟩

instance : IsAntisymm String strLeR := by
  constructor
  intro a b hab hba
  cases a with
  | mk la =>
    cases b with
    | mk lb => exact congrArg String.mk (charsLe_antisymm la lb hab hba)

/-- Python's `sorted` on a list of strings: ascending code-point order.
Python uses a stable sort; on a total order over strings, equal elements
are identical, so any sorted rearrangement is the same list and insertion
sort models it exactly. -/
def pySorted (l : List String) : List String := List.insertionSort strLeR l

/-- Python's `sep.join(parts)`. -/
def joinSep (sep : String) : List String → String
  | [] => ""
  | [s] => s
  | s :: rest => s ++ sep ++ joinSep sep rest

/-- `FeatureCache._make_key` (cache.py lines 22-30), up to the final md5
hexdigest (a deterministic function of this string).  `if feature_names:`
and `if version:` are Python truthiness tests: `None`, the empty list and
the empty string all skip the corresponding part. -/
def makeKey (entity_id : String) (feature_names : Option (List String))
    (version : Option String) : String :=
  let parts1 : List String := [entity_id]
  let parts2 : List String :=
    match feature_names with
    | some names => if names = [] then parts1
                    else parts1 ++ [joinSep "," (pySorted names)]
    | none => parts1
  let parts3 : List String :=
    match version with
    | some v => if v = "" then parts2 else parts2 ++ [v]
    | none => parts2
  joinSep "|" parts3

theorem pySorted_eq_of_perm {l1 l2 : List String} (h : l1.Perm l2) :
    pySorted l1 = pySorted l2 := by
  apply List.eq_of_perm_of_sorted (r := strLeR)
  · exact (List.perm_insertionSort strLeR l1).trans
      (h.trans (List.perm_insertionSort strLeR l2).symm)
  · exact List.sorted_insertionSort strLeR l1
  · exact List.sorted_insertionSort strLeR l2

/-- C7: cache key derivation is deterministic and order-independent in the
feature-name list: for every entity id, version, and feature-name lists
that are permutations of each other, the derived key is equal, so requests
differing only in list order hit the same cache entry. -/
theorem makeKey_perm_invariant (e v : String) (l1 l2 : List String)
    (h : l1.Perm l2) :
    makeKey e (some l1) (some v) = makeKey e (some l2) (some v) := by
  have hsort : pySorted l1 = pySorted l2 := pySorted_eq_of_perm h
  by_cases h1 : l1 = []
  · subst h1
    have h2 : l2 = [] := List.Perm.eq_nil h.symm
    subst h2
    rfl
  · have h2 : l2 ≠ [] := fun hh => h1 (List.Perm.eq_nil (hh ▸ h))
    simp only [makeKey, if_neg h1, if_neg h2, hsort]

/-- Witness for C7 at the spec's example: `key(e, ["b","a"], v)` equals
`key(e, ["a","b"], v)`. -/
theorem makeKey_perm_invariant_witness :
    makeKey "e" (some ["b", "a"]) (some "v") =
      makeKey "e" (some ["a", "b"]) (some "v") :=
  makeKey_perm_invariant "e" "v" ["b", "a"] ["a", "b"] (by decide)

/-- C10, counterexample: the claimed equality
`key(e + "|" + v, none, none) = key(e, none, some v)` fails for the empty
version string, because `if version:` is falsy for `""` and drops the
version part entirely. -/
theorem makeKey_collision_fails_for_empty_version :
    makeKey ("x" ++ "|" ++ "") none none ≠ makeKey "x" none (some "") := by
  decide

/-- C10, amended: for every entity id and every non-empty version string,
the request `(e + "|" + v, no names, no version)` is distinct from
`(e, no names, version v)` yet both derive the same cache key, so the key
function is not injective over request shapes and the two requests read
and overwrite each other's cache entry. -/
theorem makeKey_not_injective (e v : String) (h : v ≠ "") :
    ((e ++ "|" ++ v, (none : Option (List String)), (none : Option String)) ≠
        (e, (none : Option (List String)), some v)) ∧
      makeKey (e ++ "|" ++ v) none none = makeKey e none (some v) := by
  constructor
  · intro hcontra
    have : (none : Option String) = some v := congrArg (fun t => t.2.2) hcontra
    exact Option.noConfusion this
  · simp only [makeKey, if_neg h]
    rfl

/-- Witness for C10's amended theorem at `e = "x"`, `v = "v1"`. -/
theorem makeKey_not_injective_witness :
    ((("x" ++ "|" ++ "v1"), (none : Option (List String)), (none : Option String)) ≠
        ("x", (none : Option (List String)), some "v1")) ∧
      makeKey ("x" ++ "|" ++ "v1") none none = makeKey "x" none (some "v1") :=
  makeKey_not_injective "x" "v1" (by decide)

/-! ## Stored values, `json.dumps` and `json.loads`
(`compute.py`, `store_feature_values`; `main.py`, `get_feature_vector`)

`Val` is the universe of computed and decoded feature values the claims
exercise: Python `int`, `str`, `bool`, `None`, `list` and `dict` values,
plus `floatLit` carrying the literal text of a JSON float (`json.loads`
decodes float syntax and the `NaN`/`Infinity` constants; the resulting
machine float is represented by the text it was parsed from, and float
arithmetic and rendering stay out of scope — `okVal` excludes `floatLit`
from every round-trip statement).  `dumps` renders a value the way
`json.dumps` does with its default separators (`", "` between items,
`": "` after keys); `parseJson` is `json.loads` on this fragment: a
recursive-descent reader of numbers (with the JSON grammar's leading-zero
rule and float/exponent syntax), `true`/`false`/`null`, the Python
scanner's `NaN`/`Infinity`/`-Infinity` constants, strings, arrays and
objects, skipping JSON whitespace and failing on anything else, with the
scanner's maximal-munch number tokenization.  Both are restricted to
strings of printable ASCII without `"` or `\`, the fragment where
`json.dumps` emits no escape sequences (`okStr` below). -/

inductive Val where
  | num (n : Int)
  | str (s : String)
  | boolv (b : Bool)
  | nullv
  | floatLit (t : String)
  | arr (l : List Val)
  | obj (l : List (String × Val))

/-- The decimal digit character for `n % 10`-style arguments. -/
def digitChar : Nat → Char
  | 0 => '0' | 1 => '1' | 2 => '2' | 3 => '3' | 4 => '4'
  | 5 => '5' | 6 => '6' | 7 => '7' | 8 => '8' | 9 => '9'
  | _ => '0'

/-- Decimal digits of a natural number, most significant first; the fuel
argument (any bound strictly above `n`) makes the recursion structural. -/
def natDigitsAux : Nat → Nat → List Char
  | 0, _ => []
  | fuel + 1, n =>
    if n < 10 then [digitChar n]
    else natDigitsAux fuel (n / 10) ++ [digitChar (n % 10)]

def natDigits (n : Nat) : List Char := natDigitsAux (n + 1) n

/-- Python's decimal rendering of an `int` (`str(n)` and `json.dumps(n)`
agree on integers). -/
def intChars (n : Int) : List Char :=
  if n < 0 then '-' :: natDigits n.natAbs else natDigits n.natAbs

mutual
/-- `json.dumps` with default separators, as a character list.  The
`floatLit` case is a placeholder: `json.dumps` renders a float via
`repr`, which is outside the modelled fragment, and `okVal` excludes
`floatLit` from every statement that mentions `dumps`. -/
def dumpsL : Val → List Char
  | .num n => intChars n
  | .str s => '"' :: s.data ++ ['"']
  | .boolv true => ['t', 'r', 'u', 'e']
  | .boolv false => ['f', 'a', 'l', 's', 'e']
  | .nullv => ['n', 'u', 'l', 'l']
  | .floatLit _ => ['0', '.', '0']
  | .arr l => '[' :: dumpsElems l ++ [']']
  | .obj l => '{' :: dumpsMembers l ++ ['}']

def dumpsElems : List Val → List Char
  | [] => []
  | [v] => dumpsL v
  | v :: rest => dumpsL v ++ ',' :: ' ' :: dumpsElems rest

def dumpsMembers : List (String × Val) → List Char
  | [] => []
  | [(k, v)] => '"' :: k.data ++ '"' :: ':' :: ' ' :: dumpsL v
  | (k, v) :: rest =>
    '"' :: k.data ++ '"' :: ':' :: ' ' :: dumpsL v ++ ',' :: ' ' :: dumpsMembers rest
end

def dumps (v : Val) : String := ⟨dumpsL v⟩

/-- A character `json.dumps` passes through verbatim inside a string
literal: printable ASCII other than the quote and the backslash. -/
def okChar (c : Char) : Bool :=
  decide (32 ≤ c.toNat ∧ c.toNat ≤ 126 ∧ c ≠ '"' ∧ c ≠ '\\')

def okStr (s : String) : Bool := s.data.all okChar

mutual
/-- All strings inside the value need no JSON escaping. -/
def okVal : Val → Bool
  | .num _ => true
  | .str s => okStr s
  | .boolv _ => true
  | .nullv => true
  | .floatLit _ => false
  | .arr l => okElems l
  | .obj l => okMembers l

def okElems : List Val → Bool
  | [] => true
  | v :: rest => okVal v && okElems rest

def okMembers : List (String × Val) → Bool
  | [] => true
  | (k, v) :: rest => okStr k && okVal v && okMembers rest
end

/-- JSON whitespace (what `json.loads` skips between tokens). -/
def isWsChar (c : Char) : Bool :=
  decide (c = ' ' ∨ c = '\t' ∨ c = '\n' ∨ c = '\r')

def skipWs : List Char → List Char
  | [] => []
  | c :: cs => if isWsChar c then skipWs cs else c :: cs

/-- Longest prefix of decimal digits. -/
def takeDigits : List Char → List Char × List Char
  | [] => ([], [])
  | c :: cs =>
    if c.isDigit then
      let (ds, rest) := takeDigits cs
      (c :: ds, rest)
    else ([], c :: cs)

def digitsToNat (ds : List Char) : Nat :=
  ds.foldl (fun acc c => 10 * acc + (c.toNat - 48)) 0

/-- The list does not continue a number token: its head is not a digit
and not `.`, `e` or `E`.  Inside `dumps` output every number is followed
by `,`, `]`, `}` or the end of the text, all of which stop a number. -/
def numBoundary : List Char → Bool
  | [] => true
  | c :: _ => !(c.isDigit || decide (c = '.') || decide (c = 'e') || decide (c = 'E'))

/-- Fraction part of a JSON number, the scanner's optional group
`(\.\d+)?`: consumed only when a digit follows the dot, otherwise
nothing is consumed. -/
def fracPart : List Char → List Char × List Char
  | [] => ([], [])
  | c :: rest =>
    if c = '.' then
      match rest with
      | d :: _ =>
        if d.isDigit then
          match takeDigits rest with
          | (ds, r) => ('.' :: ds, r)
        else ([], c :: rest)
      | [] => ([], c :: rest)
    else ([], c :: rest)

/-- Exponent part of a JSON number, the scanner's optional group
`([eE][-+]?\d+)?`: consumed only when complete, otherwise nothing is
consumed. -/
def expPart : List Char → List Char × List Char
  | [] => ([], [])
  | e :: rest =>
    if e = 'e' ∨ e = 'E' then
      match rest with
      | s :: rest2 =>
        if s = '+' ∨ s = '-' then
          match rest2 with
          | d :: _ =>
            if d.isDigit then
              match takeDigits rest2 with
              | (ds, r) => (e :: s :: ds, r)
            else ([], e :: s :: rest2)
          | [] => ([], e :: s :: rest2)
        else if s.isDigit then
          match takeDigits rest with
          | (ds, r) => (e :: ds, r)
        else ([], e :: rest)
      | [] => ([], [e])
    else ([], e :: rest)

/-- After the integer digits of a number token: a fraction or exponent
makes it a float, kept as its literal text; otherwise it is the integer
of those digits. -/
def continueNumber (neg : Bool) (intDs : List Char) (cs : List Char) :
    Option (Val × List Char) :=
  match fracPart cs with
  | (fracDs, cs1) =>
    match expPart cs1 with
    | (expDs, cs2) =>
      if fracDs = [] ∧ expDs = [] then
        some (.num (if neg then -(digitsToNat intDs : Int) else (digitsToNat intDs : Int)), cs)
      else
        some (.floatLit ⟨(if neg then ['-'] else []) ++ intDs ++ fracDs ++ expDs⟩, cs2)

/-- The number production of `json.loads` (its `NUMBER_RE`): the integer
part is `0` or a nonzero digit run — a leading zero ends the integer part
at once, so `042` is never one number token — followed by the optional
fraction and exponent. -/
def parseNumberBody (neg : Bool) : List Char → Option (Val × List Char)
  | [] => none
  | c :: rest =>
    if c = '0' then continueNumber neg ['0'] rest
    else if c.isDigit then
      match takeDigits (c :: rest) with
      | (ds, r) => continueNumber neg ds r
    else none

/-- Body of a JSON string literal up to its closing quote; fails on a
backslash (escape sequences are outside the modelled fragment) or a
missing quote. -/
def takeStr : List Char → Option (List Char × List Char)
  | [] => none
  | c :: cs =>
    if c = '"' then some ([], cs)
    else if c = '\\' then none
    else
      match takeStr cs with
      | some (s, rest) => some (c :: s, rest)
      | none => none

mutual
/-- One JSON value, fueled recursive descent (`json.loads` on the
modelled fragment): strings, arrays, objects, `true`/`false`/`null`, the
Python scanner's `NaN`/`Infinity`/`-Infinity` constants, and number
tokens via `parseNumberBody`.  Returns the value and the unconsumed
suffix. -/
def parseVal : Nat → List Char → Option (Val × List Char)
  | 0, _ => none
  | fuel + 1, cs =>
    match skipWs cs with
    | [] => none
    | c :: rest =>
      if c = '"' then
        match takeStr rest with
        | some (s, r) => some (.str ⟨s⟩, r)
        | none => none
      else if c = '[' then
        match skipWs rest with
        | ']' :: r => some (.arr [], r)
        | cs2 =>
          match parseElems fuel cs2 with
          | some (l, r) => some (.arr l, r)
          | none => none
      else if c = '{' then
        match skipWs rest with
        | '}' :: r => some (.obj [], r)
        | cs2 =>
          match parseMembers fuel cs2 with
          | some (l, r) => some (.obj l, r)
          | none => none
      else if c = 't' then
        match rest with
        | 'r' :: 'u' :: 'e' :: r => some (.boolv true, r)
        | _ => none
      else if c = 'f' then
        match rest with
        | 'a' :: 'l' :: 's' :: 'e' :: r => some (.boolv false, r)
        | _ => none
      else if c = 'n' then
        match rest with
        | 'u' :: 'l' :: 'l' :: r => some (.nullv, r)
        | _ => none
      else if c = 'N' then
        match rest with
        | 'a' :: 'N' :: r => some (.floatLit "NaN", r)
        | _ => none
      else if c = 'I' then
        match rest with
        | 'n' :: 'f' :: 'i' :: 'n' :: 'i' :: 't' :: 'y' :: r =>
          some (.floatLit "Infinity", r)
        | _ => none
      else if c = '-' then
        match rest with
        | 'I' :: 'n' :: 'f' :: 'i' :: 'n' :: 'i' :: 't' :: 'y' :: r =>
          some (.floatLit "-Infinity", r)
        | _ => parseNumberBody true rest
      else if c.isDigit then
        parseNumberBody false (c :: rest)
      else none

/-- Comma-separated values up to and including the closing `]`. -/
def parseElems : Nat → List Char → Option (List Val × List Char)
  | 0, _ => none
  | fuel + 1, cs =>
    match parseVal fuel cs with
    | none => none
    | some (v, rest) =>
      match skipWs rest with
      | ',' :: r =>
        match parseElems fuel (skipWs r) with
        | some (l, r2) => some (v :: l, r2)
        | none => none
      | ']' :: r => some ([v], r)
      | _ => none

/-- Comma-separated `"key": value` pairs up to and including the closing
`}`. -/
def parseMembers : Nat → List Char → Option (List (String × Val) × List Char)
  | 0, _ => none
  | fuel + 1, cs =>
    match skipWs cs with
    | '"' :: rest =>
      match takeStr rest with
      | none => none
      | some (k, r1) =>
        match skipWs r1 with
        | ':' :: r2 =>
          match parseVal fuel r2 with
          | none => none
          | some (v, r3) =>
            match skipWs r3 with
            | ',' :: r4 =>
              match parseMembers fuel (skipWs r4) with
              | some (l, r5) => some ((⟨k⟩, v) :: l, r5)
              | none => none
            | '}' :: r4 => some ([(⟨k⟩, v)], r4)
            | _ => none
        | _ => none
    | _ => none
end

/-- `json.loads` on the modelled fragment: parse one value and require
only whitespace after it. -/
def parseJson (s : String) : Option Val :=
  match parseVal (s.data.length + 1) s.data with
  | some (v, rest) => if skipWs rest = [] then some v else none
  | none => none

example : parseJson (dumps (.obj [("a", .num 1)])) =
    some (.obj [("a", .num 1)]) := by rfl
example : dumps (.arr [.num (-5), .str "hi"]) =
    String.mk ['[', '-', '5', ',', ' ', '"', 'h', 'i', '"', ']'] := by rfl
example : parseJson "42" = some (.num 42) := by rfl
example : parseJson "hello" = none := by rfl
example : parseJson "042" = none := by rfl
example : parseJson "true" = some (.boolv true) := by rfl
example : parseJson "null" = some .nullv := by rfl
example : parseJson "[3.5, NaN]" =
    some (.arr [.floatLit "3.5", .floatLit "NaN"]) := by rfl
example : parseJson "1e" = none := by rfl

/-! ### Round-trip of `dumps` through `parseJson` -/

/-- The list does not start with a decimal digit (so a digit run before it
ends exactly there). -/
def headNotDigit : List Char → Bool
  | [] => true
  | c :: _ => !c.isDigit

theorem digitChar_isDigit (n : Nat) : (digitChar n).isDigit = true := by
  unfold digitChar
  split <;> decide

theorem digitChar_val (n : Nat) (h : n < 10) : (digitChar n).toNat - 48 = n := by
  interval_cases n <;> decide

theorem natDigitsAux_ne_nil (fuel n : Nat) (h : n < fuel) :
    natDigitsAux fuel n ≠ [] := by
  cases fuel with
  | zero => omega
  | succ fuel =>
    unfold natDigitsAux
    split
    · exact List.cons_ne_nil _ _
    · simp

theorem natDigitsAux_all_digits (fuel n : Nat) :
    (natDigitsAux fuel n).all Char.isDigit = true := by
  induction fuel generalizing n with
  | zero => rfl
  | succ fuel ih =>
    unfold natDigitsAux
    split
    · simp [digitChar_isDigit]
    · simp [List.all_append, ih, digitChar_isDigit]

theorem natDigitsAux_foldl (fuel : Nat) :
    ∀ n acc, n < fuel →
      List.foldl (fun acc c => 10 * acc + (c.toNat - 48)) acc (natDigitsAux fuel n) =
        acc * 10 ^ (natDigitsAux fuel n).length + n := by
  induction fuel with
  | zero => intro n acc h; omega
  | succ fuel ih =>
    intro n acc _
    by_cases h10 : n < 10
    · simp only [natDigitsAux, if_pos h10, List.foldl_cons, List.foldl_nil,
        List.length_cons, List.length_nil, digitChar_val n h10]
      ring
    · have hdiv : n / 10 < fuel := by omega
      simp only [natDigitsAux, if_neg h10, List.foldl_append, List.foldl_cons,
        List.foldl_nil, List.length_append, List.length_cons, List.length_nil,
        ih (n / 10) acc hdiv]
      have hd : (digitChar (n % 10)).toNat - 48 = n % 10 :=
        digitChar_val (n % 10) (by omega)
      rw [hd]
      have hdm : 10 * (n / 10) + n % 10 = n := by omega
      calc 10 * (acc * 10 ^ (natDigitsAux fuel (n / 10)).length + n / 10) + n % 10
          = acc * 10 ^ (natDigitsAux fuel (n / 10)).length * 10 +
              (10 * (n / 10) + n % 10) := by ring
        _ = acc * 10 ^ ((natDigitsAux fuel (n / 10)).length + 0 + 1) + n := by
              rw [hdm]; ring

theorem digitsToNat_natDigits (n : Nat) : digitsToNat (natDigits n) = n := by
  unfold digitsToNat natDigits
  rw [natDigitsAux_foldl (n + 1) n 0 (by omega)]
  ring

theorem takeDigits_append (ds : List Char) (rest : List Char)
    (hds : ds.all Char.isDigit = true) (hrest : headNotDigit rest = true) :
    takeDigits (ds ++ rest) = (ds, rest) := by
  induction ds with
  | nil =>
    cases rest with
    | nil => rfl
    | cons c cs =>
      have hc : c.isDigit = false := by
        simpa [headNotDigit] using hrest
      simp [takeDigits, hc]
  | cons d ds ih =>
    rw [List.all_cons, Bool.and_eq_true] at hds
    simp [takeDigits, hds.1, ih hds.2]

theorem numBoundary_head {c : Char} {r : List Char}
    (h : numBoundary (c :: r) = true) :
    c.isDigit = false ∧ c ≠ '.' ∧ c ≠ 'e' ∧ c ≠ 'E' := by
  simp only [numBoundary, Bool.not_eq_eq_eq_not, Bool.not_true, Bool.or_eq_false_iff,
    decide_eq_false_iff_not] at h
  exact ⟨h.1.1.1, h.1.1.2, h.1.2, h.2⟩

theorem headNotDigit_of_numBoundary {rest : List Char}
    (h : numBoundary rest = true) : headNotDigit rest = true := by
  cases rest with
  | nil => rfl
  | cons c r =>
    have := (numBoundary_head h).1
    simp [headNotDigit, this]

theorem fracPart_boundary (cs : List Char) (h : numBoundary cs = true) :
    fracPart cs = ([], cs) := by
  cases cs with
  | nil => rfl
  | cons c r =>
    obtain ⟨-, hdot, -, -⟩ := numBoundary_head h
    simp [fracPart, hdot]

theorem expPart_boundary (cs : List Char) (h : numBoundary cs = true) :
    expPart cs = ([], cs) := by
  cases cs with
  | nil => rfl
  | cons c r =>
    obtain ⟨-, -, he, hE⟩ := numBoundary_head h
    have : ¬(c = 'e' ∨ c = 'E') := by
      rintro (rfl | rfl)
      · exact he rfl
      · exact hE rfl
    simp [expPart, this]

theorem continueNumber_boundary (neg : Bool) (intDs : List Char)
    (rest : List Char) (h : numBoundary rest = true) :
    continueNumber neg intDs rest =
      some (.num (if neg then -(digitsToNat intDs : Int)
                  else (digitsToNat intDs : Int)), rest) := by
  simp only [continueNumber, fracPart_boundary rest h, expPart_boundary rest h]
  rfl

/-- `natDigits` of a positive number starts with a nonzero digit:
Python's decimal rendering has no leading zeros, so an integer written by
`str` is always one whole number token for the reader. -/
theorem natDigitsAux_head_pos (fuel : Nat) :
    ∀ n, 0 < n → n < fuel →
      ∃ c cs, natDigitsAux fuel n = c :: cs ∧ c.isDigit = true ∧ c ≠ '0' := by
  induction fuel with
  | zero => intro n _ h; omega
  | succ fuel ih =>
    intro n hpos _
    by_cases h10 : n < 10
    · refine ⟨digitChar n, [], by simp [natDigitsAux, h10], digitChar_isDigit n, ?_⟩
      interval_cases n <;> decide
    · have hdiv : 0 < n / 10 := by omega
      have hlt : n / 10 < fuel := by
        have : n / 10 < n := Nat.div_lt_self (by omega) (by omega)
        omega
      obtain ⟨c, cs, hcons, hd, h0⟩ := ih (n / 10) hdiv hlt
      refine ⟨c, cs ++ [digitChar (n % 10)], ?_, hd, h0⟩
      simp [natDigitsAux, h10, hcons]

theorem parseNumberBody_natDigits (neg : Bool) (n : Nat) (rest : List Char)
    (hrest : numBoundary rest = true) :
    parseNumberBody neg (natDigits n ++ rest) =
      some (.num (if neg then -(n : Int) else (n : Int)), rest) := by
  by_cases hn : n = 0
  · subst hn
    show continueNumber neg ['0'] rest = _
    rw [continueNumber_boundary neg ['0'] rest hrest]
    rfl
  · obtain ⟨c, cs, hcons, hd, h0⟩ :=
      natDigitsAux_head_pos (n + 1) n (by omega) (by omega)
    have hcons2 : natDigits n = c :: cs := hcons
    rw [hcons2, List.cons_append]
    show parseNumberBody neg (c :: (cs ++ rest)) = _
    simp only [parseNumberBody]
    rw [if_neg h0, if_pos hd,
      show c :: (cs ++ rest) = natDigits n ++ rest from by rw [hcons2, List.cons_append],
      takeDigits_append (natDigits n) rest (natDigitsAux_all_digits (n + 1) n)
        (headNotDigit_of_numBoundary hrest)]
    show continueNumber neg (natDigits n) rest = _
    rw [continueNumber_boundary neg (natDigits n) rest hrest, digitsToNat_natDigits]

theorem takeStr_append (k rest : List Char)
    (hk : ∀ c ∈ k, c ≠ '"' ∧ c ≠ '\\') :
    takeStr (k ++ '"' :: rest) = some (k, rest) := by
  induction k with
  | nil => simp [takeStr]
  | cons c cs ih =>
    have hc := hk c (List.mem_cons_self c cs)
    have ih' := ih fun x hx => hk x (List.mem_cons_of_mem c hx)
    simp [takeStr, hc.1, hc.2, ih']

theorem skipWs_not_ws {c : Char} (cs : List Char) (h : isWsChar c = false) :
    skipWs (c :: cs) = c :: cs := by
  simp [skipWs, h]

theorem skipWs_space (cs : List Char) : skipWs (' ' :: cs) = skipWs cs := by
  simp [skipWs, isWsChar]

theorem not_ws_of_digit {c : Char} (h : c.isDigit = true) : isWsChar c = false := by
  apply decide_eq_false
  rintro (rfl | rfl | rfl | rfl) <;> exact absurd h (by decide)

theorem digit_ne_delims {c : Char} (h : c.isDigit = true) :
    c ≠ '"' ∧ c ≠ '[' ∧ c ≠ '{' ∧ c ≠ '-' := by
  refine ⟨?_, ?_, ?_, ?_⟩ <;> (rintro rfl; exact absurd h (by decide))

/-- `dumpsL` output starts with a digit, `-`, `"`, `[` or `{`: never with
whitespace, and never with a closing delimiter or comma. -/
theorem dumpsL_head (v : Val) :
    ∃ c cs, dumpsL v = c :: cs ∧ isWsChar c = false ∧
      c ≠ ']' ∧ c ≠ '}' ∧ c ≠ ',' := by
  cases v with
  | num n =>
    by_cases hn : n < 0
    · refine ⟨'-', natDigits n.natAbs, ?_, by decide, by decide, by decide, by decide⟩
      simp [dumpsL, intChars, hn]
    · obtain ⟨c, cs, hcons⟩ : ∃ c cs, natDigits n.natAbs = c :: cs := by
        cases h : natDigits n.natAbs with
        | nil => exact absurd h (natDigitsAux_ne_nil _ _ (by omega))
        | cons c cs => exact ⟨c, cs, rfl⟩
      have hd : c.isDigit = true := by
        have := natDigitsAux_all_digits (n.natAbs + 1) n.natAbs
        rw [show natDigitsAux (n.natAbs + 1) n.natAbs = natDigits n.natAbs from rfl,
          hcons] at this
        simp [List.all_cons] at this
        exact this.1
      refine ⟨c, cs, ?_, not_ws_of_digit hd, ?_, ?_, ?_⟩
      · simp [dumpsL, intChars, hn, hcons]
      · rintro rfl; exact absurd hd (by decide)
      · rintro rfl; exact absurd hd (by decide)
      · rintro rfl; exact absurd hd (by decide)
  | str s =>
    exact ⟨'"', s.data ++ ['"'], rfl, by decide, by decide, by decide, by decide⟩
  | boolv b =>
    cases b with
    | true => exact ⟨'t', ['r', 'u', 'e'], rfl, by decide, by decide, by decide, by decide⟩
    | false =>
      exact ⟨'f', ['a', 'l', 's', 'e'], rfl, by decide, by decide, by decide, by decide⟩
  | nullv =>
    exact ⟨'n', ['u', 'l', 'l'], rfl, by decide, by decide, by decide, by decide⟩
  | floatLit t =>
    exact ⟨'0', ['.', '0'], rfl, by decide, by decide, by decide, by decide⟩
  | arr l =>
    exact ⟨'[', dumpsElems l ++ [']'], rfl, by decide, by decide, by decide, by decide⟩
  | obj ms =>
    exact ⟨'{', dumpsMembers ms ++ ['}'], rfl, by decide, by decide, by decide, by decide⟩

theorem skipWs_dumpsL (v : Val) (xs : List Char) :
    skipWs (dumpsL v ++ xs) = dumpsL v ++ xs := by
  obtain ⟨c, cs, hcons, hws, -⟩ := dumpsL_head v
  rw [hcons, List.cons_append, skipWs_not_ws _ hws]

theorem skipWs_dumpsElems (v : Val) (t : List Val) (xs : List Char) :
    skipWs (dumpsElems (v :: t) ++ xs) = dumpsElems (v :: t) ++ xs := by
  cases t with
  | nil => simpa [dumpsElems] using skipWs_dumpsL v xs
  | cons v2 t2 =>
    have := skipWs_dumpsL v (',' :: ' ' :: dumpsElems (v2 :: t2) ++ xs)
    simpa [dumpsElems, List.append_assoc] using this
set_option maxHeartbeats 1000000

theorem okStr_mem {s : String} (h : okStr s = true) :
    ∀ c ∈ s.data, c ≠ '"' ∧ c ≠ '\\' := by
  intro c hc
  have h2 := of_decide_eq_true (List.all_eq_true.mp h c hc)
  exact ⟨h2.2.2.1, h2.2.2.2⟩

theorem skipWs_cons_of_digit {c : Char} (h : c.isDigit = true) (cs : List Char) :
    skipWs (c :: cs) = c :: cs :=
  skipWs_not_ws cs (not_ws_of_digit h)

theorem skipWs_cons_rbrack (cs : List Char) : skipWs (']' :: cs) = ']' :: cs :=
  skipWs_not_ws cs (by decide)

theorem skipWs_cons_rbrace (cs : List Char) : skipWs ('}' :: cs) = '}' :: cs :=
  skipWs_not_ws cs (by decide)

theorem skipWs_cons_comma (cs : List Char) : skipWs (',' :: cs) = ',' :: cs :=
  skipWs_not_ws cs (by decide)

theorem skipWs_cons_colon (cs : List Char) : skipWs (':' :: cs) = ':' :: cs :=
  skipWs_not_ws cs (by decide)

theorem skipWs_cons_quote (cs : List Char) : skipWs ('"' :: cs) = '"' :: cs :=
  skipWs_not_ws cs (by decide)

theorem parseVal_cons_space (fuel : Nat) (cs : List Char) :
    parseVal fuel (' ' :: cs) = parseVal fuel cs := by
  cases fuel with
  | zero => rfl
  | succ fuel => rw [parseVal, parseVal, skipWs_space]

theorem parseVal_quote (fuel : Nat) (cs : List Char) :
    parseVal (fuel + 1) ('"' :: cs) =
      (match takeStr cs with
       | some (s, r) => some (Val.str ⟨s⟩, r)
       | none => none) := rfl

theorem parseVal_lbrack (fuel : Nat) (cs : List Char) :
    parseVal (fuel + 1) ('[' :: cs) =
      (match skipWs cs with
       | ']' :: r => some (Val.arr [], r)
       | cs2 =>
         match parseElems fuel cs2 with
         | some (l, r) => some (Val.arr l, r)
         | none => none) := rfl

theorem parseVal_lbrace (fuel : Nat) (cs : List Char) :
    parseVal (fuel + 1) ('{' :: cs) =
      (match skipWs cs with
       | '}' :: r => some (Val.obj [], r)
       | cs2 =>
         match parseMembers fuel cs2 with
         | some (l, r) => some (Val.obj l, r)
         | none => none) := rfl

theorem parseVal_minus (fuel : Nat) (cs : List Char) :
    parseVal (fuel + 1) ('-' :: cs) =
      (match cs with
       | 'I' :: 'n' :: 'f' :: 'i' :: 'n' :: 'i' :: 't' :: 'y' :: r =>
         some (Val.floatLit "-Infinity", r)
       | _ => parseNumberBody true cs) := rfl

theorem parseVal_digit (fuel : Nat) {c : Char} (cs : List Char) (h : c.isDigit = true) :
    parseVal (fuel + 1) (c :: cs) = parseNumberBody false (c :: cs) := by
  have h1 : ¬(c = '"') := by rintro rfl; exact absurd h (by decide)
  have h2 : ¬(c = '[') := by rintro rfl; exact absurd h (by decide)
  have h3 : ¬(c = '{') := by rintro rfl; exact absurd h (by decide)
  have h4 : ¬(c = 't') := by rintro rfl; exact absurd h (by decide)
  have h5 : ¬(c = 'f') := by rintro rfl; exact absurd h (by decide)
  have h6 : ¬(c = 'n') := by rintro rfl; exact absurd h (by decide)
  have h7 : ¬(c = 'N') := by rintro rfl; exact absurd h (by decide)
  have h8 : ¬(c = 'I') := by rintro rfl; exact absurd h (by decide)
  have h9 : ¬(c = '-') := by rintro rfl; exact absurd h (by decide)
  simp only [parseVal, skipWs_cons_of_digit h, if_neg h1, if_neg h2, if_neg h3,
    if_neg h4, if_neg h5, if_neg h6, if_neg h7, if_neg h8, if_neg h9, if_pos h]

theorem skipWs_dumpsMembers (m : String × Val) (t : List (String × Val))
    (xs : List Char) :
    skipWs (dumpsMembers (m :: t) ++ xs) = dumpsMembers (m :: t) ++ xs := by
  obtain ⟨k, v⟩ := m
  cases t with
  | nil =>
    show skipWs ('"' :: (k.data ++ '"' :: ':' :: ' ' :: dumpsL v ++ xs)) = _
    rw [skipWs_cons_quote]
    rfl
  | cons m2 t2 =>
    show skipWs ('"' :: (k.data ++ '"' :: ':' :: ' ' :: dumpsL v ++
      ',' :: ' ' :: dumpsMembers (m2 :: t2) ++ xs)) = _
    rw [skipWs_cons_quote]
    rfl

theorem parse_dumps (fuel : Nat) :
    (∀ v rest, okVal v = true → (dumpsL v).length < fuel → numBoundary rest = true →
      parseVal fuel (dumpsL v ++ rest) = some (v, rest)) ∧
    (∀ l rest, okElems l = true → l ≠ [] → (dumpsElems l).length + 1 < fuel →
      parseElems fuel (dumpsElems l ++ ']' :: rest) = some (l, rest)) ∧
    (∀ ms rest, okMembers ms = true → ms ≠ [] → (dumpsMembers ms).length + 1 < fuel →
      parseMembers fuel (dumpsMembers ms ++ '}' :: rest) = some (ms, rest)) := by
  induction fuel with
  | zero =>
    exact ⟨fun v rest _ h _ => absurd h (by omega),
      fun l rest _ _ h => absurd h (by omega),
      fun ms rest _ _ h => absurd h (by omega)⟩
  | succ fuel ih =>
    obtain ⟨ihP, ihQ, ihR⟩ := ih
    refine ⟨?_, ?_, ?_⟩
    · intro v rest hok hlen hrest
      cases v with
      | num n =>
        by_cases hn : n < 0
        · have h1 : dumpsL (.num n) = '-' :: natDigits n.natAbs := by
            simp [dumpsL, intChars, hn]
          have h2 : -((n.natAbs : Nat) : Int) = n := by omega
          obtain ⟨c, cs, hcons, hd, -⟩ :=
            natDigitsAux_head_pos (n.natAbs + 1) n.natAbs (by omega) (by omega)
          have hcons2 : natDigits n.natAbs = c :: cs := hcons
          rw [h1, List.cons_append, parseVal_minus, hcons2, List.cons_append]
          split
          · rename_i r heq
            have : 'I' = c := List.head_eq_of_cons_eq heq.symm
            rw [← this] at hd
            exact absurd hd (by decide)
          · rw [show c :: (cs ++ rest) = natDigits n.natAbs ++ rest from by
              rw [hcons2, List.cons_append],
              parseNumberBody_natDigits true n.natAbs rest hrest]
            show some (Val.num (-((n.natAbs : Nat) : Int)), rest) = _
            rw [h2]
        · have h1 : dumpsL (.num n) = natDigits n.natAbs := by
            simp [dumpsL, intChars, hn]
          have h2 : ((n.natAbs : Nat) : Int) = n := by omega
          obtain ⟨c, cs, hcons⟩ : ∃ c cs, natDigits n.natAbs = c :: cs := by
            cases h : natDigits n.natAbs with
            | nil => exact absurd h (natDigitsAux_ne_nil _ _ (by omega))
            | cons c cs => exact ⟨c, cs, rfl⟩
          have hd : c.isDigit = true := by
            have hall := natDigitsAux_all_digits (n.natAbs + 1) n.natAbs
            rw [show natDigitsAux (n.natAbs + 1) n.natAbs = natDigits n.natAbs from rfl,
              hcons, List.all_cons, Bool.and_eq_true] at hall
            exact hall.1
          rw [h1, hcons, List.cons_append, parseVal_digit fuel _ hd,
            show c :: (cs ++ rest) = natDigits n.natAbs ++ rest from by
              rw [hcons, List.cons_append],
            parseNumberBody_natDigits false n.natAbs rest hrest]
          show some (Val.num ((n.natAbs : Nat) : Int), rest) = _
          rw [h2]
      | boolv b => cases b <;> rfl
      | nullv => rfl
      | floatLit t => exact absurd hok (by simp [okVal])
      | str s =>
        have h1 : dumpsL (.str s) ++ rest = '"' :: (s.data ++ '"' :: rest) := by
          simp [dumpsL]
        rw [h1, parseVal_quote,
          takeStr_append s.data rest (okStr_mem (by simpa [okVal] using hok))]
      | arr l =>
        have h1 : dumpsL (.arr l) ++ rest = '[' :: (dumpsElems l ++ ']' :: rest) := by
          simp [dumpsL]
        rw [h1, parseVal_lbrack]
        cases l with
        | nil =>
          rw [show dumpsElems [] = [] from rfl, List.nil_append, skipWs_cons_rbrack]
          rfl
        | cons v t =>
          rw [skipWs_dumpsElems]
          have hq := ihQ (v :: t) rest (by simpa [okVal] using hok)
            (List.cons_ne_nil v t)
            (by simp only [dumpsL, List.length_cons, List.length_append] at hlen; omega)
          obtain ⟨c, cs2, hcons, hws, hc1, hc2, hc3⟩ := dumpsL_head v
          have hform : ∃ tl, dumpsElems (v :: t) ++ ']' :: rest = c :: tl := by
            cases t with
            | nil => exact ⟨cs2 ++ ']' :: rest, by simp [dumpsElems, hcons]⟩
            | cons v2 t2 =>
              exact ⟨cs2 ++ ',' :: ' ' :: dumpsElems (v2 :: t2) ++ ']' :: rest,
                by simp [dumpsElems, hcons, List.append_assoc]⟩
          obtain ⟨tl, hform⟩ := hform
          rw [hform] at hq ⊢
          split
          · rename_i r heq
            exact absurd (List.head_eq_of_cons_eq heq.symm) (Ne.symm hc1)
          · rw [hq]
      | obj ms =>
        have h1 : dumpsL (.obj ms) ++ rest = '{' :: (dumpsMembers ms ++ '}' :: rest) := by
          simp [dumpsL]
        rw [h1, parseVal_lbrace]
        cases ms with
        | nil =>
          rw [show dumpsMembers [] = [] from rfl, List.nil_append, skipWs_cons_rbrace]
          rfl
        | cons m t =>
          rw [skipWs_dumpsMembers]
          have hr := ihR (m :: t) rest (by simpa [okVal] using hok)
            (List.cons_ne_nil m t)
            (by simp only [dumpsL, List.length_cons, List.length_append] at hlen; omega)
          obtain ⟨k, v⟩ := m
          have hform : ∃ tl, dumpsMembers ((k, v) :: t) ++ '}' :: rest = '"' :: tl := by
            cases t with
            | nil =>
              exact ⟨k.data ++ '"' :: ':' :: ' ' :: dumpsL v ++ '}' :: rest,
                by simp [dumpsMembers, List.append_assoc]⟩
            | cons m2 t2 =>
              exact ⟨k.data ++ '"' :: ':' :: ' ' :: dumpsL v ++ ',' :: ' ' ::
                  dumpsMembers (m2 :: t2) ++ '}' :: rest,
                by simp [dumpsMembers, List.append_assoc]⟩
          obtain ⟨tl, hform⟩ := hform
          rw [hform] at hr ⊢
          split
          · rename_i r heq
            exact absurd (List.head_eq_of_cons_eq heq.symm) (by decide)
          · rw [hr]
    · intro l rest hok hne hlen
      cases l with
      | nil => exact absurd rfl hne
      | cons v t =>
        rw [okElems, Bool.and_eq_true] at hok
        cases t with
        | nil =>
          have hlen1 : (dumpsL v).length < fuel := by
            rw [show dumpsElems [v] = dumpsL v from rfl] at hlen
            omega
          rw [show dumpsElems [v] ++ ']' :: rest = dumpsL v ++ ']' :: rest from rfl,
            parseElems, ihP v (']' :: rest) hok.1 hlen1 rfl]
          show (match skipWs (']' :: rest) with
            | ',' :: r =>
              match parseElems fuel (skipWs r) with
              | some (l, r2) => some (v :: l, r2)
              | none => none
            | ']' :: r => some ([v], r)
            | _ => none) = some ([v], rest)
          rw [skipWs_cons_rbrack]
          rfl
        | cons v2 t2 =>
          have h1 : dumpsElems (v :: v2 :: t2) ++ ']' :: rest =
              dumpsL v ++ ',' :: ' ' :: (dumpsElems (v2 :: t2) ++ ']' :: rest) := by
            simp [dumpsElems, List.append_assoc]
          have hlen2 : (dumpsL v).length < fuel ∧
              (dumpsElems (v2 :: t2)).length + 1 < fuel := by
            rw [show dumpsElems (v :: v2 :: t2) =
              dumpsL v ++ ',' :: ' ' :: dumpsElems (v2 :: t2) from rfl] at hlen
            simp only [List.length_append, List.length_cons] at hlen
            constructor <;> omega
          rw [h1, parseElems,
            ihP v (',' :: ' ' :: (dumpsElems (v2 :: t2) ++ ']' :: rest)) hok.1
              hlen2.1 rfl]
          show (match skipWs (',' :: ' ' :: (dumpsElems (v2 :: t2) ++ ']' :: rest)) with
            | ',' :: r =>
              match parseElems fuel (skipWs r) with
              | some (l, r2) => some (v :: l, r2)
              | none => none
            | ']' :: r => some ([v], r)
            | _ => none) = some (v :: v2 :: t2, rest)
          rw [skipWs_cons_comma]
          show (match parseElems fuel
              (skipWs (' ' :: (dumpsElems (v2 :: t2) ++ ']' :: rest))) with
            | some (l, r2) => some (v :: l, r2)
            | none => none) = some (v :: v2 :: t2, rest)
          rw [skipWs_space, skipWs_dumpsElems,
            ihQ (v2 :: t2) rest hok.2 (List.cons_ne_nil v2 t2) hlen2.2]
    · intro ms rest hok hne hlen
      cases ms with
      | nil => exact absurd rfl hne
      | cons m t =>
        obtain ⟨k, v⟩ := m
        rw [okMembers, Bool.and_eq_true, Bool.and_eq_true] at hok
        obtain ⟨⟨hk, hv⟩, ht⟩ := hok
        cases t with
        | nil =>
          have h1 : dumpsMembers [(k, v)] ++ '}' :: rest =
              '"' :: (k.data ++ '"' :: (':' :: ' ' :: (dumpsL v ++ '}' :: rest))) := by
            simp [dumpsMembers, List.append_assoc]
          have hlen1 : (dumpsL v).length < fuel := by
            rw [show dumpsMembers [(k, v)] =
              '"' :: k.data ++ '"' :: ':' :: ' ' :: dumpsL v from rfl] at hlen
            simp only [List.length_append, List.length_cons] at hlen
            omega
          rw [h1, parseMembers, skipWs_cons_quote]
          show (match takeStr (k.data ++ '"' :: (':' :: ' ' :: (dumpsL v ++ '}' :: rest))) with
            | none => none
            | some (k2, r1) =>
              match skipWs r1 with
              | ':' :: r2 =>
                match parseVal fuel r2 with
                | none => none
                | some (v2, r3) =>
                  match skipWs r3 with
                  | ',' :: r4 =>
                    match parseMembers fuel (skipWs r4) with
                    | some (l, r5) => some ((String.mk k2, v2) :: l, r5)
                    | none => none
                  | '}' :: r4 => some ([(String.mk k2, v2)], r4)
                  | _ => none
              | _ => none) = some ([(k, v)], rest)
          rw [takeStr_append k.data _ (okStr_mem hk)]
          show (match skipWs (':' :: ' ' :: (dumpsL v ++ '}' :: rest)) with
            | ':' :: r2 =>
              match parseVal fuel r2 with
              | none => none
              | some (v2, r3) =>
                match skipWs r3 with
                | ',' :: r4 =>
                  match parseMembers fuel (skipWs r4) with
                  | some (l, r5) => some ((String.mk k.data, v2) :: l, r5)
                  | none => none
                | '}' :: r4 => some ([(String.mk k.data, v2)], r4)
                | _ => none
            | _ => none) = some ([(k, v)], rest)
          rw [skipWs_cons_colon]
          show (match parseVal fuel (' ' :: (dumpsL v ++ '}' :: rest)) with
            | none => none
            | some (v2, r3) =>
              match skipWs r3 with
              | ',' :: r4 =>
                match parseMembers fuel (skipWs r4) with
                | some (l, r5) => some ((String.mk k.data, v2) :: l, r5)
                | none => none
              | '}' :: r4 => some ([(String.mk k.data, v2)], r4)
              | _ => none) = some ([(k, v)], rest)
          rw [parseVal_cons_space, ihP v ('}' :: rest) hv hlen1 rfl]
          show (match skipWs ('}' :: rest) with
            | ',' :: r4 =>
              match parseMembers fuel (skipWs r4) with
              | some (l, r5) => some ((String.mk k.data, v) :: l, r5)
              | none => none
            | '}' :: r4 => some ([(String.mk k.data, v)], r4)
            | _ => none) = some ([(k, v)], rest)
          rw [skipWs_cons_rbrace]
          rfl
        | cons m2 t2 =>
          have h1 : dumpsMembers ((k, v) :: m2 :: t2) ++ '}' :: rest =
              '"' :: (k.data ++ '"' :: (':' :: ' ' ::
                (dumpsL v ++ ',' :: ' ' :: (dumpsMembers (m2 :: t2) ++ '}' :: rest)))) := by
            simp [dumpsMembers, List.append_assoc]
          have hlen2 : (dumpsL v).length < fuel ∧
              (dumpsMembers (m2 :: t2)).length + 1 < fuel := by
            rw [show dumpsMembers ((k, v) :: m2 :: t2) =
              '"' :: k.data ++ '"' :: ':' :: ' ' :: dumpsL v ++ ',' :: ' ' ::
                dumpsMembers (m2 :: t2) from rfl] at hlen
            simp only [List.length_append, List.length_cons] at hlen
            constructor <;> omega
          rw [h1, parseMembers, skipWs_cons_quote]
          show (match takeStr (k.data ++ '"' :: (':' :: ' ' ::
              (dumpsL v ++ ',' :: ' ' :: (dumpsMembers (m2 :: t2) ++ '}' :: rest)))) with
            | none => none
            | some (k2, r1) =>
              match skipWs r1 with
              | ':' :: r2 =>
                match parseVal fuel r2 with
                | none => none
                | some (v2, r3) =>
                  match skipWs r3 with
                  | ',' :: r4 =>
                    match parseMembers fuel (skipWs r4) with
                    | some (l, r5) => some ((String.mk k2, v2) :: l, r5)
                    | none => none
                  | '}' :: r4 => some ([(String.mk k2, v2)], r4)
                  | _ => none
              | _ => none) = some ((k, v) :: m2 :: t2, rest)
          rw [takeStr_append k.data _ (okStr_mem hk)]
          show (match skipWs (':' :: ' ' ::
              (dumpsL v ++ ',' :: ' ' :: (dumpsMembers (m2 :: t2) ++ '}' :: rest))) with
            | ':' :: r2 =>
              match parseVal fuel r2 with
              | none => none
              | some (v2, r3) =>
                match skipWs r3 with
                | ',' :: r4 =>
                  match parseMembers fuel (skipWs r4) with
                  | some (l, r5) => some ((String.mk k.data, v2) :: l, r5)
                  | none => none
                | '}' :: r4 => some ([(String.mk k.data, v2)], r4)
                | _ => none
            | _ => none) = some ((k, v) :: m2 :: t2, rest)
          rw [skipWs_cons_colon]
          show (match parseVal fuel (' ' ::
              (dumpsL v ++ ',' :: ' ' :: (dumpsMembers (m2 :: t2) ++ '}' :: rest))) with
            | none => none
            | some (v2, r3) =>
              match skipWs r3 with
              | ',' :: r4 =>
                match parseMembers fuel (skipWs r4) with
                | some (l, r5) => some ((String.mk k.data, v2) :: l, r5)
                | none => none
              | '}' :: r4 => some ([(String.mk k.data, v2)], r4)
              | _ => none) = some ((k, v) :: m2 :: t2, rest)
          rw [parseVal_cons_space,
            ihP v (',' :: ' ' :: (dumpsMembers (m2 :: t2) ++ '}' :: rest)) hv
              hlen2.1 rfl]
          show (match skipWs (',' :: ' ' :: (dumpsMembers (m2 :: t2) ++ '}' :: rest)) with
            | ',' :: r4 =>
              match parseMembers fuel (skipWs r4) with
              | some (l, r5) => some ((String.mk k.data, v) :: l, r5)
              | none => none
            | '}' :: r4 => some ([(String.mk k.data, v)], r4)
            | _ => none) = some ((k, v) :: m2 :: t2, rest)
          rw [skipWs_cons_comma]
          show (match parseMembers fuel
              (skipWs (' ' :: (dumpsMembers (m2 :: t2) ++ '}' :: rest))) with
            | some (l, r5) => some ((String.mk k.data, v) :: l, r5)
            | none => none) = some ((k, v) :: m2 :: t2, rest)
          rw [skipWs_space, skipWs_dumpsMembers,
            ihR (m2 :: t2) rest ht (List.cons_ne_nil m2 t2) hlen2.2]

theorem parseJson_dumps (v : Val) (h : okVal v = true) :
    parseJson (dumps v) = some v := by
  have hp := (parse_dumps ((dumpsL v).length + 1)).1 v [] h (by omega) rfl
  rw [List.append_nil] at hp
  show (match parseVal ((dumpsL v).length + 1) (dumpsL v) with
    | some (v, rest) => if skipWs rest = [] then some v else none
    | none => none) = some v
  rw [hp]
  rfl

/-- A value read back from the `value` column: either the result of a
successful `json.loads`, or the raw stored text (the `except` fallback in
`get_feature_vector`). -/
inductive DecodedVal where
  | jval (v : Val)
  | raw (s : String)

/-- The write-side encoding in `store_feature_values` (compute.py lines
74-79): `json.dumps` for `dict` / `list` values, `str(value)` otherwise —
so `str(True) = "True"`, `str(None) = "None"` (which are not valid JSON
and will fall back to raw text on read).  The `floatLit` case carries its
text: Python's `str(float)` rendering is outside the modelled fragment
and no theorem quantifies over it. -/
def encodeStored : Val → String
  | .obj ms => dumps (.obj ms)
  | .arr l => dumps (.arr l)
  | .num n => ⟨intChars n⟩
  | .str s => s
  | .boolv true => "True"
  | .boolv false => "False"
  | .nullv => "None"
  | .floatLit t => t

/-- The read-side decoding in `get_feature_vector` (main.py lines 321-325):
try `json.loads`, fall back to the raw stored text. -/
def decodeStored (s : String) : DecodedVal :=
  match parseJson s with
  | some j => .jval j
  | none => .raw s

def isComposite : Val → Bool
  | .arr _ => true
  | .obj _ => true
  | _ => false

/-- C6: stored values round-trip through the encode/decode pair.  A
composite (mapping/sequence) value is serialized as JSON text on store and
decoded back to the equal structured value on resolve, not its string
form; a scalar is stored as its plain text and on resolve JSON decoding is
attempted first with fallback to the raw text — an integer scalar's text
is always valid JSON and resolves to the number, and a string scalar
resolves to the JSON-decoded value when its text parses as JSON and to the
raw text verbatim otherwise.  The concrete conjuncts pin the valid-JSON
boundary to `json.loads`: a leading-zero numeral such as `042` is not
valid JSON and resolves to the raw text, the texts `true` and `3.5` are
decoded (to the boolean and to the float written `3.5`), and the Python
scalar renderings `True` / `False` / `None` are not valid JSON and come
back verbatim. -/
theorem stored_round_trip :
    (∀ v : Val, isComposite v = true → okVal v = true →
      decodeStored (encodeStored v) = .jval v) ∧
    (∀ n : Int, decodeStored (encodeStored (.num n)) = .jval (.num n)) ∧
    (∀ s : String,
      (∀ j, parseJson s = some j → decodeStored (encodeStored (.str s)) = .jval j) ∧
      (parseJson s = none → decodeStored (encodeStored (.str s)) = .raw s)) ∧
    (decodeStored (encodeStored (.str "042")) = .raw "042" ∧
      decodeStored (encodeStored (.str "true")) = .jval (.boolv true) ∧
      decodeStored (encodeStored (.str "3.5")) = .jval (.floatLit "3.5")) ∧
    (decodeStored (encodeStored (.boolv true)) = .raw "True" ∧
      decodeStored (encodeStored (.boolv false)) = .raw "False" ∧
      decodeStored (encodeStored .nullv) = .raw "None") := by
  refine ⟨?_, ?_, ?_, ⟨rfl, rfl, rfl⟩, ⟨rfl, rfl, rfl⟩⟩
  · intro v hc hok
    cases v with
    | num n => simp [isComposite] at hc
    | str s => simp [isComposite] at hc
    | boolv b => simp [isComposite] at hc
    | nullv => simp [isComposite] at hc
    | floatLit t => simp [isComposite] at hc
    | arr l =>
      show decodeStored (dumps (.arr l)) = .jval (.arr l)
      unfold decodeStored
      rw [parseJson_dumps _ hok]
    | obj ms =>
      show decodeStored (dumps (.obj ms)) = .jval (.obj ms)
      unfold decodeStored
      rw [parseJson_dumps _ hok]
  · intro n
    show decodeStored (dumps (.num n)) = .jval (.num n)
    unfold decodeStored
    rw [parseJson_dumps (.num n) rfl]
  · intro s
    constructor
    · intro j hj
      show decodeStored s = .jval j
      unfold decodeStored
      rw [hj]
    · intro hj
      show decodeStored s = .raw s
      unfold decodeStored
      rw [hj]

example : decodeStored (encodeStored (.obj [("a", .num 1)])) =
    DecodedVal.jval (.obj [("a", .num 1)]) := by rfl
example : decodeStored (encodeStored (.str "42")) = .jval (.num 42) := by rfl
example : decodeStored (encodeStored (.str "hello")) = .raw "hello" := by rfl

/-! ## Schema validation (`compute.py`, `validate_raw_data_schema`)

A raw batch after the conversion in `compute_feature_version` (main.py
lines 174-182: `pd.DataFrame(request.data)` plus `set_index`) is a `Df`: an
entity-id index and named columns of cells.  A cell is a Python `int`, a
`str`, or `None`.  `inferDtype` is pandas' dtype inference for a column
built from such records: the column is numeric (`int64`/`float64`, `None`
becoming `NaN`) exactly when it holds at least one number and nothing but
numbers and `None`; any string, and a column of only `None`, give dtype
`object`.  On these dtypes `pd.api.types.is_numeric_dtype` holds exactly
for the numeric dtype, and `is_string_dtype` / `is_object_dtype` (the
source's permissive string check) hold exactly for `object`. -/

inductive Cell where
  | cNum (n : Int)
  | cStr (s : String)
  | cNone
deriving DecidableEq

inductive Dtype where
  | numeric
  | object
deriving DecidableEq

def isNumCell : Cell → Bool
  | .cNum _ => true
  | _ => false

def isNoneCell : Cell → Bool
  | .cNone => true
  | _ => false

def isStrCell : Cell → Bool
  | .cStr _ => true
  | _ => false

/-- pandas dtype inference for a record-built column (see section
comment). -/
def inferDtype (cells : List Cell) : Dtype :=
  if cells.any isNumCell && cells.all (fun c => isNumCell c || isNoneCell c) then
    .numeric
  else .object

/-- A raw batch with its entity index set. -/
structure Df where
  index : List String
  cols : List (String × List Cell)
deriving DecidableEq

/-- `schema_definition` of a raw table: `required_columns` and
`column_types` (JSON object modelled as an association list, preserving
Python dict iteration order). -/
structure SchemaDef where
  required_columns : List String
  column_types : List (String × String)
deriving DecidableEq

/-- The `ValueError`s `validate_raw_data_schema` raises, with their
payload. -/
inductive SchemaErr where
  | missingColumns (missing : List String)
  | typeMismatch (col expected : String)
deriving DecidableEq

def dfHasCol (df : Df) (c : String) : Bool :=
  df.cols.any (fun p => decide (p.1 = c))

def lookupCol (df : Df) (c : String) : Option (List Cell) :=
  (df.cols.find? (fun p => decide (p.1 = c))).map Prod.snd

/-- The type-checking loop of `validate_raw_data_schema` (compute.py lines
111-120): for each declared column present in the batch, `numeric` demands
a numeric dtype and `string` demands a string/`object` dtype; the first
violation raises. -/
def checkColumnTypes (df : Df) : List (String × String) → Except SchemaErr Bool
  | [] => .ok true
  | (col, expected) :: rest =>
    match lookupCol df col with
    | none => checkColumnTypes df rest
    | some cells =>
      if expected = "numeric" then
        if inferDtype cells = .numeric then checkColumnTypes df rest
        else .error (.typeMismatch col "numeric")
      else if expected = "string" then
        if inferDtype cells = .object then checkColumnTypes df rest
        else .error (.typeMismatch col "string")
      else checkColumnTypes df rest

/-- `validate_raw_data_schema` (compute.py lines 91-122): first the
required-columns check, reporting the full missing set in one error, then
the per-column type checks. -/
def validate_raw_data_schema (df : Df) (schema : SchemaDef) : Except SchemaErr Bool :=
  if schema.required_columns.filter (fun c => !dfHasCol df c) ≠ [] then
    .error (.missingColumns (schema.required_columns.filter (fun c => !dfHasCol df c)))
  else checkColumnTypes df schema.column_types

/-! ## Computation sandbox (`compute.py`, `compute_feature`)

`compute_feature` runs the user-supplied transformation text with `exec`
over the raw batch.  The execution itself is arbitrary Python; its
observable effect on `compute_feature` is captured by `ExecOutcome`:
either the `exec` call raised, or it completed leaving `result` unbound or
bound to some object.  A bound object is a pandas Series (an indexed list
of values), a DataFrame (an index plus named value columns), or anything
else.  `compute_feature` maps the outcome through the shape checks of
compute.py lines 41-58; every raised `ValueError` — including the internal
shape errors, which are raised inside the `try` — is caught by the
`except` and re-raised as the single message
`"Error computing feature: ..."`. -/

inductive PyObj where
  | series (s : List (String × Val))
  | dataframe (idx : List String) (cols : List (String × List Val))
  | other

inductive ExecOutcome where
  | raises (msg : String)
  | completes (result : Option PyObj)

/-- `df.iloc[:, 0]` of a DataFrame: its first column as a Series under the
frame's index. -/
def firstColumn (idx : List String) (cols : List (String × List Val)) :
    List (String × Val) :=
  match cols with
  | [] => []
  | (_, vals) :: _ => idx.zip vals

/-- `compute_feature` (compute.py lines 36-58) as a function of the
execution outcome. -/
def compute_feature (outcome : ExecOutcome) : Except String (List (String × Val)) :=
  match outcome with
  | .raises msg => .error ("Error computing feature: " ++ msg)
  | .completes none =>
    .error "Error computing feature: Computation logic must assign result to a result variable"
  | .completes (some (.series s)) => .ok s
  | .completes (some (.dataframe idx cols)) =>
    if cols.length = 1 then .ok (firstColumn idx cols)
    else .error "Error computing feature: Computation must return a single column"
  | .completes (some .other) =>
    .error "Error computing feature: Computation must return a pandas Series or DataFrame"

/-- C3: for every transformation logic and input table — that is, for
every outcome of executing the logic — compute succeeds exactly when the
execution bound `result` to a Series (returned as-is) or to a
single-column DataFrame (coerced to its first column); absence of
`result`, any other shape, or an exception during execution yields a
single descriptive error with the `Error computing feature` prefix, and no
raw execution fault ever propagates (an exception with message `m` is
reported as the wrapped message, never re-thrown as-is). -/
theorem compute_feature_contract :
    (∀ o s, compute_feature o = .ok s ↔
      (o = .completes (some (.series s)) ∨
        ∃ idx cols, o = .completes (some (.dataframe idx cols)) ∧
          cols.length = 1 ∧ s = firstColumn idx cols)) ∧
    (∀ msg, compute_feature (.raises msg) =
      .error ("Error computing feature: " ++ msg)) ∧
    (∀ o, (∃ s, compute_feature o = .ok s) ∨
      (∃ m, compute_feature o = .error ("Error computing feature: " ++ m))) := by
  refine ⟨?_, fun msg => rfl, ?_⟩
  · intro o s
    constructor
    · intro h
      cases o with
      | raises msg => simp [compute_feature] at h
      | completes r =>
        match r with
        | none => simp [compute_feature] at h
        | some (.series s2) =>
          simp only [compute_feature, Except.ok.injEq] at h
          exact Or.inl (by rw [h])
        | some (.dataframe idx cols) =>
          by_cases hc : cols.length = 1
          · simp only [compute_feature, if_pos hc, Except.ok.injEq] at h
            exact Or.inr ⟨idx, cols, rfl, hc, h.symm⟩
          · simp [compute_feature, if_neg hc] at h
        | some .other => simp [compute_feature] at h
    · rintro (rfl | ⟨idx, cols, rfl, hc, rfl⟩)
      · rfl
      · simp [compute_feature, if_pos hc]
  · intro o
    cases o with
    | raises msg => exact Or.inr ⟨msg, rfl⟩
    | completes r =>
      match r with
      | none =>
        exact Or.inr ⟨"Computation logic must assign result to a result variable", rfl⟩
      | some (.series s) => exact Or.inl ⟨s, rfl⟩
      | some (.dataframe idx cols) =>
        by_cases hc : cols.length = 1
        · exact Or.inl ⟨firstColumn idx cols, by simp [compute_feature, if_pos hc]⟩
        · exact Or.inr ⟨"Computation must return a single column",
            by simp [compute_feature, if_neg hc]⟩
      | some .other =>
        exact Or.inr ⟨"Computation must return a pandas Series or DataFrame", rfl⟩

/-! ## Version store and application state (`models.py`, `main.py`)

Records mirror the SQLAlchemy models.  A `Feature` row carries its raw
table's `schema_definition` inline (the `feature.raw_table` relationship
join) and its transformation text is represented by the execution outcome
passed to the pipeline.  The session is modelled at commit granularity:
the `Db` lists hold committed rows only; `store_feature_values` either
commits all its pending value rows or — when the database refuses the
commit — loses them to the caller's `rollback`, which cannot undo the
version row committed earlier. -/

structure FeatureR where
  id : Nat
  name : String
  schema : SchemaDef
deriving DecidableEq

structure FeatureVersionR where
  id : Nat
  feature_id : Nat
  version : String
  status : String
  computed_at : Nat
deriving DecidableEq

structure FeatureValueR where
  feature_version_id : Nat
  entity_id : String
  value : String
deriving DecidableEq

structure Db where
  features : List FeatureR
  versions : List FeatureVersionR
  values : List FeatureValueR
  nextVersionId : Nat
deriving DecidableEq

/-- The vector cache's store: cache key to cached feature mapping.  The
time-to-live and capacity bound of `TTLCache` are not modelled; within an
entry's lifetime `get` returns what `set` stored, which is the behaviour
the claims exercise. -/
def CacheStore := List (String × List (String × DecodedVal))

def cacheGet (c : CacheStore) (k : String) : Option (List (String × DecodedVal)) :=
  (c.find? (fun p => decide (p.1 = k))).map Prod.snd

def cacheSet (c : CacheStore) (k : String) (v : List (String × DecodedVal)) : CacheStore :=
  (k, v) :: c.filter (fun p => !decide (p.1 = k))

structure AppState where
  db : Db
  cache : CacheStore

/-- `latestActiveVersion` (main.py lines 297-300): among the feature's
versions with `status = "active"`, the one with the greatest `computed_at`
(`order_by(computed_at.desc()).first()`), or `none`. -/
def latestActiveVersion (versions : List FeatureVersionR) (fid : Nat) :
    Option FeatureVersionR :=
  (versions.filter
      (fun v => decide (v.feature_id = fid) && decide (v.status = "active"))).foldl
    (fun acc v =>
      match acc with
      | none => some v
      | some u => if v.computed_at > u.computed_at then some v else acc) none

/-- `valueFor` (main.py lines 304-307): the stored value row for one
version and entity. -/
def findValue (values : List FeatureValueR) (vid : Nat) (e : String) :
    Option FeatureValueR :=
  values.find? (fun fv => decide (fv.feature_version_id = vid) && decide (fv.entity_id = e))

/-- The features considered by the latest-version branch (main.py lines
286-291): all features, or only the named ones; `if request.feature_names:`
is falsy for `None` and for the empty list. -/
def candidateFeatures (db : Db) (names : Option (List String)) : List FeatureR :=
  match names with
  | none => db.features
  | some ns => if ns = [] then db.features
               else db.features.filter (fun f => decide (f.name ∈ ns))

/-- One feature's contribution to the vector under latest-version
resolution: the value under its latest active version, if both exist. -/
def featureContribution (db : Db) (e : String) (f : FeatureR) : Option FeatureValueR :=
  match latestActiveVersion db.versions f.id with
  | none => none
  | some lv => findValue db.values lv.id e

/-- The accumulated `results` list of the latest-version branch (main.py
lines 294-310), in feature order. -/
def latestResults (db : Db) (e : String) (names : Option (List String)) :
    List (FeatureValueR × FeatureR) :=
  (candidateFeatures db names).filterMap
    (fun f => (featureContribution db e f).map (fun fv => (fv, f)))

/-- The explicit-version branch (main.py lines 268-282): the join of
values for this entity with versions carrying the requested label and
their features, filtered by name when a non-empty name list is given. -/
def explicitResults (db : Db) (e : String) (ver : String)
    (names : Option (List String)) : List (FeatureValueR × FeatureR) :=
  db.values.filterMap (fun fv =>
    if fv.entity_id = e then
      match db.versions.find? (fun vv =>
        decide (vv.id = fv.feature_version_id) && decide (vv.version = ver)) with
      | none => none
      | some vv =>
        match db.features.find? (fun f => decide (f.id = vv.feature_id)) with
        | none => none
        | some f =>
          match names with
          | none => some (fv, f)
          | some ns =>
            if ns = [] then some (fv, f)
            else if f.name ∈ ns then some (fv, f) else none
    else none)

/-- Python dict assignment `m[k] = v`: replace in place, append when new. -/
def assocSet (m : List (String × DecodedVal)) (k : String) (v : DecodedVal) :
    List (String × DecodedVal) :=
  match m with
  | [] => [(k, v)]
  | (k2, v2) :: rest => if k2 = k then (k, v) :: rest else (k2, v2) :: assocSet rest k v

def assocGet (m : List (String × DecodedVal)) (k : String) : Option DecodedVal :=
  match m with
  | [] => none
  | (k2, v2) :: rest => if k2 = k then some v2 else assocGet rest k

/-- Building `feature_vector` (main.py lines 319-327): decode each stored
value (JSON first, raw fallback) into the dict under its feature's name. -/
def buildVector (results : List (FeatureValueR × FeatureR)) :
    List (String × DecodedVal) :=
  results.foldl (fun m p => assocSet m p.2.name (decodeStored p.1.value)) []

inductive ApiError where
  | notFound (msg : String)
  | duplicateVersion
  | schemaError (e : SchemaErr)
  | computationError (msg : String)
  | storageError
deriving DecidableEq

/-- The cache-miss path of `get_feature_vector` (main.py lines 267-336):
branch on `if request.version:` (falsy for `None` and `""`), fail with 404
exactly when the accumulated results are empty, otherwise build the
vector, cache it under the request shape and return it. -/
def resolveVectorMiss (s : AppState) (e : String) (names : Option (List String))
    (version : Option String) :
    Except ApiError (List (String × DecodedVal)) × AppState :=
  let results :=
    match version with
    | some ver => if ver = "" then latestResults s.db e names
                  else explicitResults s.db e ver names
    | none => latestResults s.db e names
  if results = [] then
    (.error (.notFound ("No feature vectors found for entity " ++ e)), s)
  else
    let vec := buildVector results
    (.ok vec, { s with cache := cacheSet s.cache (makeKey e names version) vec })

/-- `get_feature_vector` (main.py lines 249-336): consult the cache under
the request shape — `if cached:` is falsy for an empty dict — and fall
back to the resolver on a miss. -/
def get_feature_vector (s : AppState) (e : String) (names : Option (List String))
    (version : Option String) :
    Except ApiError (List (String × DecodedVal)) × AppState :=
  match cacheGet s.cache (makeKey e names version) with
  | some [] => resolveVectorMiss s e names version
  | some cached => (.ok cached, s)
  | none => resolveVectorMiss s e names version

/-- `store_feature_values` (compute.py lines 61-88): one pending value row
per series entry — composites JSON-encoded, scalars as plain text — then
one commit.  `commitFails = true` models the database refusing that
commit (`StorageError`): the pending rows are lost and `none` is
returned, standing for the raised exception. -/
def store_feature_values (db : Db) (vid : Nat) (series : List (String × Val))
    (commitFails : Bool) : Option Db :=
  if commitFails then none
  else some { db with
    values := db.values ++ series.map (fun p => ⟨vid, p.1, encodeStored p.2⟩) }

/-- The data `compute_feature_version` receives, after the DataFrame
conversion of main.py lines 174-188: the version label and the
entity-indexed batch. -/
structure VersionRequest where
  version : String
  df : Df
deriving DecidableEq

/-- `compute_feature_version` (main.py lines 141-230): look up the
feature, reject a duplicate `(feature_id, version)` label, validate the
batch against the feature's raw-table schema, run the computation, commit
the new `FeatureVersion` row, then store the computed values.  When value
storage fails, the code calls `db.rollback()`, which discards only the
uncommitted value rows: the version row was committed by the
`db.commit()` on line 216 and survives. -/
def compute_feature_version (s : AppState) (feature_id : Nat) (req : VersionRequest)
    (outcome : ExecOutcome) (storeCommitFails : Bool) (now : Nat) :
    Except ApiError FeatureVersionR × AppState :=
  match s.db.features.find? (fun f => decide (f.id = feature_id)) with
  | none => (.error (.notFound "Feature not found"), s)
  | some feature =>
    if s.db.versions.any (fun v =>
        decide (v.feature_id = feature_id) && decide (v.version = req.version)) then
      (.error .duplicateVersion, s)
    else
      match validate_raw_data_schema req.df feature.schema with
      | .error err => (.error (.schemaError err), s)
      | .ok _ =>
        match compute_feature outcome with
        | .error msg => (.error (.computationError msg), s)
        | .ok series =>
          let newVersion : FeatureVersionR :=
            ⟨s.db.nextVersionId, feature_id, req.version, "active", now⟩
          let db1 := { s.db with
            versions := s.db.versions ++ [newVersion],
            nextVersionId := s.db.nextVersionId + 1 }
          match store_feature_values db1 newVersion.id series storeCommitFails with
          | some db2 => (.ok newVersion, { s with db := db2 })
          | none => (.error .storageError, { s with db := db1 })

/-! ## Latest-active-version resolution (C2) -/

/-- The fold `order_by(computed_at.desc()).first()` reduces to: keep the
row with the strictly greatest `computed_at` seen so far. -/
def pickLatest (acc : Option FeatureVersionR) (l : List FeatureVersionR) :
    Option FeatureVersionR :=
  l.foldl
    (fun acc v =>
      match acc with
      | none => some v
      | some u => if v.computed_at > u.computed_at then some v else acc) acc

theorem latestActiveVersion_eq_pickLatest (versions : List FeatureVersionR) (fid : Nat) :
    latestActiveVersion versions fid =
      pickLatest none (versions.filter
        (fun v => decide (v.feature_id = fid) && decide (v.status = "active"))) := rfl

theorem pickLatest_cons (acc : Option FeatureVersionR) (v : FeatureVersionR)
    (l : List FeatureVersionR) :
    pickLatest acc (v :: l) =
      pickLatest
        (match acc with
         | none => some v
         | some u => if v.computed_at > u.computed_at then some v else acc) l := rfl

theorem pickLatest_some_ne_none (l : List FeatureVersionR) :
    ∀ w, pickLatest (some w) l ≠ none := by
  induction l with
  | nil => intro w h; exact Option.noConfusion h
  | cons v l ih =>
    intro w
    show pickLatest (if v.computed_at > w.computed_at then some v else some w) l ≠ none
    by_cases h : v.computed_at > w.computed_at
    · rw [if_pos h]; exact ih v
    · rw [if_neg h]; exact ih w

theorem pickLatest_mem (l : List FeatureVersionR) :
    ∀ acc v, pickLatest acc l = some v → v ∈ l ∨ acc = some v := by
  induction l with
  | nil => intro acc v h; exact Or.inr h
  | cons u l ih =>
    intro acc v h
    rw [pickLatest_cons] at h
    match acc with
    | none =>
      rcases ih (some u) v h with hm | he
      · exact Or.inl (List.mem_cons_of_mem u hm)
      · exact Or.inl (Option.some.inj he ▸ List.mem_cons_self u l)
    | some w =>
      have h2 : pickLatest (if u.computed_at > w.computed_at then some u else some w) l =
          some v := h
      by_cases hgt : u.computed_at > w.computed_at
      · rw [if_pos hgt] at h2
        rcases ih (some u) v h2 with hm | he
        · exact Or.inl (List.mem_cons_of_mem u hm)
        · exact Or.inl (Option.some.inj he ▸ List.mem_cons_self u l)
      · rw [if_neg hgt] at h2
        rcases ih (some w) v h2 with hm | he
        · exact Or.inl (List.mem_cons_of_mem u hm)
        · exact Or.inr he

theorem pickLatest_ge (l : List FeatureVersionR) :
    ∀ acc v, pickLatest acc l = some v →
      (∀ u ∈ l, u.computed_at ≤ v.computed_at) ∧
      (∀ w, acc = some w → w.computed_at ≤ v.computed_at) := by
  induction l with
  | nil =>
    intro acc v h
    refine ⟨fun u hu => absurd hu (List.not_mem_nil u), fun w hw => ?_⟩
    rw [hw] at h
    rw [Option.some.inj h]
  | cons u l ih =>
    intro acc v h
    rw [pickLatest_cons] at h
    match acc with
    | none =>
      obtain ⟨hl, hacc⟩ := ih (some u) v h
      refine ⟨fun x hx => ?_, fun w hw => Option.noConfusion hw⟩
      rcases List.mem_cons.mp hx with rfl | hx
      · exact hacc x rfl
      · exact hl x hx
    | some w =>
      have h2 : pickLatest (if u.computed_at > w.computed_at then some u else some w) l =
          some v := h
      by_cases hgt : u.computed_at > w.computed_at
      · rw [if_pos hgt] at h2
        obtain ⟨hl, hacc⟩ := ih (some u) v h2
        refine ⟨fun x hx => ?_, fun w2 hw2 => ?_⟩
        · rcases List.mem_cons.mp hx with rfl | hx
          · exact hacc x rfl
          · exact hl x hx
        · have hw : w = w2 := Option.some.inj hw2
          subst hw
          exact le_trans (le_of_lt hgt) (hacc u rfl)
      · rw [if_neg hgt] at h2
        obtain ⟨hl, hacc⟩ := ih (some w) v h2
        refine ⟨fun x hx => ?_, fun w2 hw2 => ?_⟩
        · rcases List.mem_cons.mp hx with rfl | hx
          · exact le_trans (not_lt.mp hgt) (hacc w rfl)
          · exact hl x hx
        · have hw : w = w2 := Option.some.inj hw2
          subst hw
          exact hacc w rfl

theorem pickLatest_none (l : List FeatureVersionR)
    (h : pickLatest none l = none) : l = [] := by
  cases l with
  | nil => rfl
  | cons v l =>
    rw [pickLatest_cons] at h
    exact absurd h (pickLatest_some_ne_none l v)

/-- C2: latest-version resolution with no explicit version considers only
versions whose status is active, orders them by `computed_at` descending
and returns the value under the most recent one; a feature with no active
version contributes nothing.  Concretely, for a feature with active
versions `v1` (`computed_at` 1, value 10) and `v2` (`computed_at` 2,
value 20), resolution returns the `v2` value; with `v2` deprecated it
returns the `v1` value; with both non-active the only feature contributes
nothing and resolution finds no vector. -/
theorem latest_active_version_resolution :
    (∀ (versions : List FeatureVersionR) (fid : Nat) (v : FeatureVersionR),
      latestActiveVersion versions fid = some v →
        v ∈ versions ∧ v.feature_id = fid ∧ v.status = "active" ∧
        ∀ u ∈ versions, u.feature_id = fid → u.status = "active" →
          u.computed_at ≤ v.computed_at) ∧
    (∀ (versions : List FeatureVersionR) (fid : Nat),
      latestActiveVersion versions fid = none →
        ∀ u ∈ versions, u.feature_id = fid → u.status ≠ "active") ∧
    ((get_feature_vector
        ⟨⟨[⟨1, "f", ⟨[], []⟩⟩],
          [⟨1, 1, "v1", "active", 1⟩, ⟨2, 1, "v2", "active", 2⟩],
          [⟨1, "x", "10"⟩, ⟨2, "x", "20"⟩], 3⟩, []⟩
        "x" none none).1 = .ok [("f", .jval (.num 20))]) ∧
    ((get_feature_vector
        ⟨⟨[⟨1, "f", ⟨[], []⟩⟩],
          [⟨1, 1, "v1", "active", 1⟩, ⟨2, 1, "v2", "deprecated", 2⟩],
          [⟨1, "x", "10"⟩, ⟨2, "x", "20"⟩], 3⟩, []⟩
        "x" none none).1 = .ok [("f", .jval (.num 10))]) ∧
    ((get_feature_vector
        ⟨⟨[⟨1, "f", ⟨[], []⟩⟩],
          [⟨1, 1, "v1", "deprecated", 1⟩, ⟨2, 1, "v2", "deprecated", 2⟩],
          [⟨1, "x", "10"⟩, ⟨2, "x", "20"⟩], 3⟩, []⟩
        "x" none none).1 =
      .error (.notFound ("No feature vectors found for entity " ++ "x"))) := by
  refine ⟨?_, ?_, rfl, rfl, rfl⟩
  · intro versions fid v h
    rw [latestActiveVersion_eq_pickLatest] at h
    have hmem := pickLatest_mem _ _ _ h
    rcases hmem with hmem | hmem
    · rw [List.mem_filter] at hmem
      obtain ⟨hin, hprop⟩ := hmem
      rw [Bool.and_eq_true, decide_eq_true_eq, decide_eq_true_eq] at hprop
      refine ⟨hin, hprop.1, hprop.2, fun u hu hufid hust => ?_⟩
      have hge := (pickLatest_ge _ _ _ h).1 u ?_
      · exact hge
      · rw [List.mem_filter, Bool.and_eq_true, decide_eq_true_eq, decide_eq_true_eq]
        exact ⟨hu, hufid, hust⟩
    · exact Option.noConfusion hmem
  · intro versions fid h u hu hufid hust
    rw [latestActiveVersion_eq_pickLatest] at h
    have hnil := pickLatest_none _ h
    have : u ∈ (versions.filter
        (fun v => decide (v.feature_id = fid) && decide (v.status = "active"))) := by
      rw [List.mem_filter, Bool.and_eq_true, decide_eq_true_eq, decide_eq_true_eq]
      exact ⟨hu, hufid, hust⟩
    rw [hnil] at this
    exact absurd this (List.not_mem_nil u)

/-! ## Storage failure and the version rollback (C1) -/

/-- C1: evidence against the rollback claim.  With a registered feature, a
succeeding computation and a value-store commit that the database refuses,
`compute_feature_version` reports the storage failure — but the new
`FeatureVersion` row, committed before `store_feature_values` ran, is
still in the store, and no `FeatureValue` row exists for it: the
`db.rollback()` of main.py line 224 discards only the uncommitted value
rows and cannot undo the version commit of line 216, so an orphaned
version without values remains. -/
theorem storage_failure_leaves_orphan_version :
    (compute_feature_version ⟨⟨[⟨1, "f", ⟨[], []⟩⟩], [], [], 1⟩, []⟩ 1
        ⟨"v1", ⟨["x"], []⟩⟩ (.completes (some (.series [("x", .num 1)]))) true 5).1 =
      .error .storageError ∧
    (compute_feature_version ⟨⟨[⟨1, "f", ⟨[], []⟩⟩], [], [], 1⟩, []⟩ 1
        ⟨"v1", ⟨["x"], []⟩⟩ (.completes (some (.series [("x", .num 1)]))) true 5).2.db.versions =
      [⟨1, 1, "v1", "active", 5⟩] ∧
    (compute_feature_version ⟨⟨[⟨1, "f", ⟨[], []⟩⟩], [], [], 1⟩, []⟩ 1
        ⟨"v1", ⟨["x"], []⟩⟩ (.completes (some (.series [("x", .num 1)]))) true 5).2.db.values =
      [] := ⟨rfl, rfl, rfl⟩

/-! ## The compute path never touches the vector cache (C9) -/

/-- C9: computing and committing a new feature version performs no
mutation of the vector cache.  In general the pipeline's final state
carries the caller's cache unchanged; concretely, after resolving and
caching the vector of entity `x` (value 10 under version `v1`), computing
a brand-new version `v2` (value 20) leaves the cached answer in place —
a repeated request still returns the value 10 from the cache, while the
same request against an empty cache resolves to the new version's
value 20. -/
theorem compute_version_preserves_cache :
    (∀ (s : AppState) (fid : Nat) (req : VersionRequest) (outcome : ExecOutcome)
        (fails : Bool) (now : Nat),
      (compute_feature_version s fid req outcome fails now).2.cache = s.cache) ∧
    ((get_feature_vector
        (compute_feature_version
          (get_feature_vector
            ⟨⟨[⟨1, "f", ⟨[], []⟩⟩], [⟨1, 1, "v1", "active", 1⟩], [⟨1, "x", "10"⟩], 2⟩, []⟩
            "x" none none).2
          1 ⟨"v2", ⟨["x"], []⟩⟩ (.completes (some (.series [("x", .num 20)]))) false 2).2
        "x" none none).1 = .ok [("f", .jval (.num 10))]) ∧
    ((get_feature_vector
        ⟨(compute_feature_version
            (get_feature_vector
              ⟨⟨[⟨1, "f", ⟨[], []⟩⟩], [⟨1, 1, "v1", "active", 1⟩], [⟨1, "x", "10"⟩], 2⟩, []⟩
              "x" none none).2
            1 ⟨"v2", ⟨["x"], []⟩⟩ (.completes (some (.series [("x", .num 20)]))) false 2).2.db,
          []⟩
        "x" none none).1 = .ok [("f", .jval (.num 20))]) := by
  refine ⟨?_, rfl, rfl⟩
  intro s fid req outcome fails now
  dsimp only [compute_feature_version]
  split
  · rfl
  · split
    · rfl
    · split
      · rfl
      · split
        · rfl
        · split <;> rfl

/-! ## NotFound exactly on an empty result set; silent omission (C8) -/

theorem assocGet_assocSet (m : List (String × DecodedVal)) (k2 k : String)
    (v : DecodedVal) :
    assocGet (assocSet m k2 v) k = if k2 = k then some v else assocGet m k := by
  induction m with
  | nil =>
    by_cases h : k2 = k <;> simp [assocSet, assocGet, h]
  | cons p rest ih =>
    obtain ⟨a, b⟩ := p
    by_cases h1 : a = k2
    · subst h1
      by_cases h2 : a = k <;> simp [assocSet, assocGet, h2]
    · by_cases h2 : a = k
      · subst h2
        have h3 : ¬a = k2 := h1
        by_cases h4 : k2 = a
        · exact absurd h4.symm h3
        · simp [assocSet, assocGet, h1, h4]
      · simp [assocSet, assocGet, h1, h2, ih]

theorem assocGet_buildVector_aux (results : List (FeatureValueR × FeatureR)) :
    ∀ (m : List (String × DecodedVal)) (k : String),
      (∀ p ∈ results, p.2.name ≠ k) →
      assocGet
        (results.foldl (fun m p => assocSet m p.2.name (decodeStored p.1.value)) m) k =
        assocGet m k := by
  induction results with
  | nil => intro m k _; rfl
  | cons p rest ih =>
    intro m k hk
    rw [List.foldl_cons,
      ih (assocSet m p.2.name (decodeStored p.1.value)) k
        (fun q hq => hk q (List.mem_cons_of_mem p hq)),
      assocGet_assocSet, if_neg (hk p (List.mem_cons_self p rest))]

/-- C8: on a cache miss with no explicit version, resolution fails with
NotFound exactly when no requested feature contributes a value (the
entity has no latest-active value for any candidate feature); a candidate
feature without a contribution — no active version, or no stored value
for this entity — is silently omitted from the returned mapping rather
than causing a failure.  Concretely, for features `f` (with an active
version and a value for entity `x`) and `g` (with no version at all), the
vector for `x` holds `f`'s value and no entry for `g`, and resolving an
entity with no values at all fails with NotFound. -/
theorem resolve_notfound_iff_no_contribution :
    (∀ (s : AppState) (e : String) (names : Option (List String)),
      (∀ c, cacheGet s.cache (makeKey e names none) = some c → c = []) →
      (((get_feature_vector s e names none).1 =
          .error (.notFound ("No feature vectors found for entity " ++ e))) ↔
        ∀ f ∈ candidateFeatures s.db names, featureContribution s.db e f = none)) ∧
    (∀ (s : AppState) (e : String) (names : Option (List String)) (f : FeatureR)
        (vec : List (String × DecodedVal)),
      (∀ c, cacheGet s.cache (makeKey e names none) = some c → c = []) →
      f ∈ candidateFeatures s.db names →
      (∀ g ∈ candidateFeatures s.db names, g.name = f.name →
        featureContribution s.db e g = none) →
      (get_feature_vector s e names none).1 = .ok vec →
      assocGet vec f.name = none) ∧
    ((get_feature_vector
        ⟨⟨[⟨1, "f", ⟨[], []⟩⟩, ⟨2, "g", ⟨[], []⟩⟩],
          [⟨1, 1, "v1", "active", 1⟩], [⟨1, "x", "10"⟩], 2⟩, []⟩
        "x" none none).1 = .ok [("f", .jval (.num 10))]) ∧
    ((get_feature_vector
        ⟨⟨[⟨1, "f", ⟨[], []⟩⟩, ⟨2, "g", ⟨[], []⟩⟩],
          [⟨1, 1, "v1", "active", 1⟩], [⟨1, "x", "10"⟩], 2⟩, []⟩
        "y" none none).1 =
      .error (.notFound ("No feature vectors found for entity " ++ "y"))) := by
  have hmiss : ∀ (s : AppState) (e : String) (names : Option (List String))
      (version : Option String),
      (∀ c, cacheGet s.cache (makeKey e names version) = some c → c = []) →
      get_feature_vector s e names version = resolveVectorMiss s e names version := by
    intro s e names version hc
    unfold get_feature_vector
    cases h : cacheGet s.cache (makeKey e names version) with
    | none => rfl
    | some c =>
      have := hc c h
      subst this
      rfl
  have hempty : ∀ (s : AppState) (e : String) (names : Option (List String)),
      latestResults s.db e names = [] ↔
        ∀ f ∈ candidateFeatures s.db names, featureContribution s.db e f = none := by
    intro s e names
    unfold latestResults
    rw [List.filterMap_eq_nil]
    constructor
    · intro h f hf
      have := h f hf
      cases hco : featureContribution s.db e f with
      | none => rfl
      | some fv => rw [hco] at this; exact Option.noConfusion this
    · intro h f hf
      rw [h f hf]
      rfl
  refine ⟨?_, ?_, rfl, rfl⟩
  · intro s e names hc
    rw [hmiss s e names none hc]
    unfold resolveVectorMiss
    by_cases h : latestResults s.db e names = []
    · rw [if_pos h]
      simp only [true_iff, Except.error.injEq]
      exact (hempty s e names).mp h
    · rw [if_neg h]
      constructor
      · intro habs
        exact absurd habs (by simp)
      · intro hall
        exact absurd ((hempty s e names).mpr hall) h
  · intro s e names f vec hc hf hnone hok
    rw [hmiss s e names none hc] at hok
    unfold resolveVectorMiss at hok
    by_cases h : latestResults s.db e names = []
    · rw [if_pos h] at hok
      exact absurd hok (by simp)
    · rw [if_neg h] at hok
      simp only [Except.ok.injEq] at hok
      subst hok
      unfold buildVector
      rw [assocGet_buildVector_aux]
      · rfl
      · intro p hp
        unfold latestResults at hp
        rw [List.mem_filterMap] at hp
        obtain ⟨g, hg, hmap⟩ := hp
        cases hco : featureContribution s.db e g with
        | none => rw [hco] at hmap; exact Option.noConfusion hmap
        | some fv =>
          rw [hco] at hmap
          have hp2 : p = (fv, g) := (Option.some.inj hmap).symm
          subst hp2
          intro hname
          have := hnone g hg hname
          rw [this] at hco
          exact Option.noConfusion hco

/-! ## Schema validation characterization (C4, C5) -/

/-- Specification-style restatement of the source's per-column type
check, for comparison with `validate_raw_data_schema`: a declared
`numeric` column conforms when its dtype is numeric, a declared `string`
column when its dtype is object-like, any other declared type is not
checked. -/
def typeConforms (expected : String) (cells : List Cell) : Bool :=
  if expected = "numeric" then decide (inferDtype cells = .numeric)
  else if expected = "string" then decide (inferDtype cells = .object)
  else true

theorem validate_missing_helper (df : Df) (schema : SchemaDef)
    (h : ∃ c ∈ schema.required_columns, dfHasCol df c = false) :
    validate_raw_data_schema df schema =
      .error (.missingColumns
        (schema.required_columns.filter (fun c => !dfHasCol df c))) := by
  obtain ⟨c, hcreq, hc⟩ := h
  have hne : schema.required_columns.filter (fun c => !dfHasCol df c) ≠ [] := by
    intro hnil
    have hmem : c ∈ schema.required_columns.filter (fun c => !dfHasCol df c) := by
      rw [List.mem_filter]
      exact ⟨hcreq, by rw [hc]; rfl⟩
    rw [hnil] at hmem
    exact absurd hmem (List.not_mem_nil c)
  unfold validate_raw_data_schema
  rw [if_pos hne]

theorem missing_filter_mem (df : Df) (schema : SchemaDef) (x : String) :
    x ∈ schema.required_columns.filter (fun c => !dfHasCol df c) ↔
      x ∈ schema.required_columns ∧ dfHasCol df x = false := by
  rw [List.mem_filter]
  constructor
  · rintro ⟨h1, h2⟩
    refine ⟨h1, ?_⟩
    cases h : dfHasCol df x
    · rfl
    · rw [h] at h2; exact absurd h2 (by simp)
  · rintro ⟨h1, h2⟩
    exact ⟨h1, by rw [h2]; rfl⟩

theorem checkColumnTypes_ok_iff (df : Df) (cts : List (String × String)) :
    checkColumnTypes df cts = .ok true ↔
      ∀ p ∈ cts, ∀ cells, lookupCol df p.1 = some cells →
        typeConforms p.2 cells = true := by
  induction cts with
  | nil => simp [checkColumnTypes]
  | cons p rest ih =>
    obtain ⟨col, expected⟩ := p
    cases hl : lookupCol df col with
    | none =>
      simp only [checkColumnTypes, hl]
      rw [ih]
      constructor
      · intro h q hq cells hcells
        rcases List.mem_cons.mp hq with rfl | hq
        · rw [hl] at hcells; exact Option.noConfusion hcells
        · exact h q hq cells hcells
      · intro h q hq cells hcells
        exact h q (List.mem_cons_of_mem _ hq) cells hcells
    | some cells0 =>
      simp only [checkColumnTypes, hl]
      by_cases he1 : expected = "numeric"
      · subst he1
        rw [if_pos rfl]
        by_cases hd : inferDtype cells0 = Dtype.numeric
        · rw [if_pos hd, ih]
          constructor
          · intro h q hq cells hcells
            rcases List.mem_cons.mp hq with rfl | hq
            · rw [hl] at hcells
              have hcc : cells = cells0 := (Option.some.inj hcells).symm
              subst hcc
              simp [typeConforms, hd]
            · exact h q hq cells hcells
          · intro h q hq cells hcells
            exact h q (List.mem_cons_of_mem _ hq) cells hcells
        · rw [if_neg hd]
          constructor
          · intro habs
            exact absurd habs (by simp)
          · intro h
            have := h (col, "numeric") (List.mem_cons_self _ _) cells0 hl
            rw [typeConforms, if_pos rfl] at this
            exact absurd (of_decide_eq_true this) hd
      · by_cases he2 : expected = "string"
        · subst he2
          rw [if_neg he1, if_pos rfl]
          by_cases hd : inferDtype cells0 = Dtype.object
          · rw [if_pos hd, ih]
            constructor
            · intro h q hq cells hcells
              rcases List.mem_cons.mp hq with rfl | hq
              · rw [hl] at hcells
                have hcc : cells = cells0 := (Option.some.inj hcells).symm
                subst hcc
                simp [typeConforms, he1, hd]
              · exact h q hq cells hcells
            · intro h q hq cells hcells
              exact h q (List.mem_cons_of_mem _ hq) cells hcells
          · rw [if_neg hd]
            constructor
            · intro habs
              exact absurd habs (by simp)
            · intro h
              have := h (col, "string") (List.mem_cons_self _ _) cells0 hl
              rw [typeConforms, if_neg he1, if_pos rfl] at this
              exact absurd (of_decide_eq_true this) hd
        · rw [if_neg he1, if_neg he2, ih]
          constructor
          · intro h q hq cells hcells
            rcases List.mem_cons.mp hq with rfl | hq
            · rw [typeConforms, if_neg he1, if_neg he2]
            · exact h q hq cells hcells
          · intro h q hq cells hcells
            exact h q (List.mem_cons_of_mem _ hq) cells hcells

theorem validate_ok_iff (df : Df) (schema : SchemaDef) :
    validate_raw_data_schema df schema = .ok true ↔
      (∀ c ∈ schema.required_columns, dfHasCol df c = true) ∧
      ∀ p ∈ schema.column_types, ∀ cells, lookupCol df p.1 = some cells →
        typeConforms p.2 cells = true := by
  unfold validate_raw_data_schema
  by_cases h : schema.required_columns.filter (fun c => !dfHasCol df c) ≠ []
  · rw [if_pos h]
    constructor
    · intro habs
      exact absurd habs (by simp)
    · rintro ⟨hreq, -⟩
      obtain ⟨c, hc⟩ := List.exists_mem_of_ne_nil _ h
      rw [missing_filter_mem] at hc
      rw [hreq c hc.1] at hc
      exact absurd hc.2 (by simp)
  · rw [if_neg h]
    rw [not_not] at h
    rw [checkColumnTypes_ok_iff]
    constructor
    · intro hck
      refine ⟨fun c hc => ?_, hck⟩
      cases hcol : dfHasCol df c
      · have : c ∈ schema.required_columns.filter (fun c => !dfHasCol df c) := by
          rw [missing_filter_mem]
          exact ⟨hc, hcol⟩
        rw [h] at this
        exact absurd this (List.not_mem_nil c)
      · rfl
    · rintro ⟨-, hck⟩
      exact hck

theorem checkColumnTypes_total (df : Df) (cts : List (String × String)) :
    checkColumnTypes df cts = .ok true ∨
      ∃ col expected, checkColumnTypes df cts = .error (.typeMismatch col expected) := by
  induction cts with
  | nil => exact Or.inl rfl
  | cons p rest ih =>
    obtain ⟨col, expected⟩ := p
    cases hl : lookupCol df col with
    | none => simpa only [checkColumnTypes, hl] using ih
    | some cells0 =>
      simp only [checkColumnTypes, hl]
      by_cases he1 : expected = "numeric"
      · subst he1
        rw [if_pos rfl]
        by_cases hd : inferDtype cells0 = Dtype.numeric
        · rw [if_pos hd]; exact ih
        · rw [if_neg hd]; exact Or.inr ⟨col, "numeric", rfl⟩
      · by_cases he2 : expected = "string"
        · subst he2
          rw [if_neg he1, if_pos rfl]
          by_cases hd : inferDtype cells0 = Dtype.object
          · rw [if_pos hd]; exact ih
          · rw [if_neg hd]; exact Or.inr ⟨col, "string", rfl⟩
        · rw [if_neg he1, if_neg he2]; exact ih

/-- C4: if any required column is absent from the batch, validation fails
with a single error listing exactly the full set of missing column names,
and in the pipeline this check runs before the transformation logic is
consulted — the same schema error is returned for every execution
outcome, including a raising one.  Concretely, a schema requiring
`amount` against a batch without it reports exactly `[amount]` even
though the computation would raise. -/
theorem missing_columns_reported_before_computation :
    (∀ (df : Df) (schema : SchemaDef),
      (∃ c ∈ schema.required_columns, dfHasCol df c = false) →
      ∃ missing, validate_raw_data_schema df schema = .error (.missingColumns missing) ∧
        ∀ x, x ∈ missing ↔ x ∈ schema.required_columns ∧ dfHasCol df x = false) ∧
    (∀ (s : AppState) (fid : Nat) (req : VersionRequest) (outcome : ExecOutcome)
        (fails : Bool) (now : Nat) (f : FeatureR),
      s.db.features.find? (fun g => decide (g.id = fid)) = some f →
      s.db.versions.any (fun v =>
        decide (v.feature_id = fid) && decide (v.version = req.version)) = false →
      (∃ c ∈ f.schema.required_columns, dfHasCol req.df c = false) →
      ∃ missing, compute_feature_version s fid req outcome fails now =
        (.error (.schemaError (.missingColumns missing)), s) ∧
        ∀ x, x ∈ missing ↔ x ∈ f.schema.required_columns ∧ dfHasCol req.df x = false) ∧
    ((compute_feature_version ⟨⟨[⟨1, "f", ⟨["amount"], []⟩⟩], [], [], 1⟩, []⟩ 1
        ⟨"v1", ⟨["x"], []⟩⟩ (.raises "boom") false 5).1 =
      .error (.schemaError (.missingColumns ["amount"]))) := by
  refine ⟨?_, ?_, rfl⟩
  · intro df schema h
    exact ⟨schema.required_columns.filter (fun c => !dfHasCol df c),
      validate_missing_helper df schema h, missing_filter_mem df schema⟩
  · intro s fid req outcome fails now f hfind hdup h
    refine ⟨f.schema.required_columns.filter (fun c => !dfHasCol req.df c), ?_,
      missing_filter_mem req.df f.schema⟩
    have hval := validate_missing_helper req.df f.schema h
    unfold compute_feature_version
    rw [hfind, hdup]
    simp only [Bool.false_eq_true, if_false, hval]

/-- C5, counterexample: a declared `numeric` column whose cells are all
null has no present (non-null) value, so the claim's premise — all
present values numeric-coercible — holds vacuously and the claim predicts
the column passes; but pandas infers dtype `object` for an all-`None`
record column, `is_numeric_dtype` is false, and validation rejects it. -/
theorem numeric_check_rejects_all_null_column :
    (∀ c ∈ [Cell.cNone], c ≠ Cell.cNone → isNumCell c = true) ∧
    validate_raw_data_schema ⟨["e1"], [("a", [Cell.cNone])]⟩ ⟨[], [("a", "numeric")]⟩ =
      .error (.typeMismatch "a" "numeric") := by
  constructor
  · intro c hc hne
    rw [List.mem_singleton] at hc
    exact absurd hc hne
  · rfl

/-- C5, amended: for every column with a declared type present in the
batch, validation passes the column exactly when its data conforms under
the dtype check: a `numeric` column passes exactly when it holds at least
one numeric value and nothing but numeric or null values (in particular a
column of only nulls fails the numeric check); a `string` column passes
when any of its values is a string, or when it holds no numeric value at
all (heterogeneous and object-like columns pass); validation succeeds
exactly when every required column is present and every declared, present
column conforms, and a non-conforming column aborts validation with a
descriptive type error. -/
theorem validate_column_types_amended :
    (∀ cells, inferDtype cells = .numeric ↔
      cells.any isNumCell = true ∧
        cells.all (fun c => isNumCell c || isNoneCell c) = true) ∧
    (∀ cells c, c ∈ cells → isStrCell c = true → inferDtype cells = .object) ∧
    (∀ cells, cells.any isNumCell = false → inferDtype cells = .object) ∧
    (∀ (df : Df) (schema : SchemaDef),
      validate_raw_data_schema df schema = .ok true ↔
        (∀ c ∈ schema.required_columns, dfHasCol df c = true) ∧
        ∀ p ∈ schema.column_types, ∀ cells, lookupCol df p.1 = some cells →
          typeConforms p.2 cells = true) ∧
    (∀ (df : Df) (schema : SchemaDef),
      (∀ c ∈ schema.required_columns, dfHasCol df c = true) →
      validate_raw_data_schema df schema = .ok true ∨
        ∃ col expected, validate_raw_data_schema df schema =
          .error (.typeMismatch col expected)) := by
  refine ⟨?_, ?_, ?_, validate_ok_iff, ?_⟩
  · intro cells
    unfold inferDtype
    by_cases h : (cells.any isNumCell && cells.all fun c => isNumCell c || isNoneCell c) = true
    · rw [if_pos h, Bool.and_eq_true] at *
      simp only [true_iff]
      exact h
    · rw [if_neg h]
      rw [Bool.and_eq_true] at h
      constructor
      · intro habs
        exact absurd habs (by simp)
      · intro hc
        exact absurd hc h
  · intro cells c hc hstr
    unfold inferDtype
    rw [if_neg]
    intro hcond
    rw [Bool.and_eq_true] at hcond
    have := List.all_eq_true.mp hcond.2 c hc
    cases c with
    | cNum n => exact absurd hstr (by simp [isStrCell])
    | cStr s => exact absurd this (by simp [isNumCell, isNoneCell])
    | cNone => exact absurd hstr (by simp [isStrCell])
  · intro cells h
    unfold inferDtype
    rw [if_neg]
    intro hcond
    rw [Bool.and_eq_true] at hcond
    rw [h] at hcond
    exact absurd hcond.1 (by simp)
  · intro df schema hreq
    have hmiss : schema.required_columns.filter (fun c => !dfHasCol df c) = [] := by
      rw [List.filter_eq_nil]
      intro c hc
      rw [hreq c hc]
      simp
    unfold validate_raw_data_schema
    rw [if_neg (by rw [hmiss]; exact fun hh => hh rfl)]
    exact checkColumnTypes_total df schema.column_types
